import Mathlib

/-!
Shallow embedding of the turret broker core (framing, envelope codec,
canonical signing, replay cache, catalog invariants, per-frame dispatch)
together with theorems settling the specification claims.

Bytes are modelled as `Nat` (values below 256 where produced by an encoder),
byte streams as `List Nat`.  Fallible operations return `Except`.
-/

namespace Turret

/-! ## Byte-level primitives -/

/-- Hard cap on frame payloads and `bstr` fields (`MAX_FRAME_SIZE` in lib.rs). -/
def MAX_FRAME_SIZE : Nat := 256 * 1024

/-- Value of a big-endian byte list (most significant byte first). -/
def beVal (bs : List Nat) : Nat := bs.foldl (fun a b => a * 256 + b) 0

/-- Value of a little-endian byte list (least significant byte first). -/
def leVal (bs : List Nat) : Nat := bs.foldr (fun b a => a * 256 + b) 0

/-- The four big-endian bytes of a `u32`. -/
def u32BeBytes (n : Nat) : List Nat :=
  [n / 2 ^ 24 % 256, n / 2 ^ 16 % 256, n / 2 ^ 8 % 256, n % 256]

/-- The two little-endian bytes of a `u16`. -/
def u16LeBytes (n : Nat) : List Nat := [n % 256, n / 2 ^ 8 % 256]

/-- The four little-endian bytes of a `u32`. -/
def u32LeBytes (n : Nat) : List Nat :=
  [n % 256, n / 2 ^ 8 % 256, n / 2 ^ 16 % 256, n / 2 ^ 24 % 256]

/-- The eight little-endian bytes of a `u64`. -/
def u64LeBytes (n : Nat) : List Nat :=
  [n % 256, n / 2 ^ 8 % 256, n / 2 ^ 16 % 256, n / 2 ^ 24 % 256,
   n / 2 ^ 32 % 256, n / 2 ^ 40 % 256, n / 2 ^ 48 % 256, n / 2 ^ 56 % 256]

theorem beVal_u32BeBytes (n : Nat) (h : n < 2 ^ 32) : beVal (u32BeBytes n) = n := by
  simp only [u32BeBytes, beVal, List.foldl]
  omega

theorem leVal_u16LeBytes (n : Nat) (h : n < 2 ^ 16) : leVal (u16LeBytes n) = n := by
  simp only [u16LeBytes, leVal, List.foldr]
  omega

theorem leVal_u32LeBytes (n : Nat) (h : n < 2 ^ 32) : leVal (u32LeBytes n) = n := by
  simp only [u32LeBytes, leVal, List.foldr]
  omega

theorem leVal_u64LeBytes (n : Nat) (h : n < 2 ^ 64) : leVal (u64LeBytes n) = n := by
  simp only [u64LeBytes, leVal, List.foldr]
  omega

/-! ## Framing (framing.rs)

`read_frame` consumes from a byte stream and returns the remaining stream
alongside the result, so that "consumed only the header" is expressible. -/

/-- Errors of the framing layer (`FrameError` in framing.rs). -/
inductive FrameError where
  | io : FrameError
  | frameTooLarge (len max : Nat) : FrameError
deriving DecidableEq, Repr

/-- The `read_frame`: read a 4-byte big-endian length header, reject lengths above
`MAX_FRAME_SIZE`, then read exactly that many payload bytes.  Returns the
result together with the unconsumed remainder of the stream. -/
def read_frame (s : List Nat) : Except FrameError (List Nat) × List Nat :=
  if s.length < 4 then (.error .io, s)
  else if beVal (s.take 4) > MAX_FRAME_SIZE then
    (.error (.frameTooLarge (beVal (s.take 4)) MAX_FRAME_SIZE), s.drop 4)
  else if (s.drop 4).length < beVal (s.take 4) then (.error .io, s.drop 4)
  else (.ok ((s.drop 4).take (beVal (s.take 4))), (s.drop 4).drop (beVal (s.take 4)))

/-- The `write_frame`: refuse payloads above `MAX_FRAME_SIZE`, otherwise emit the
4-byte big-endian length header followed by the payload. -/
def write_frame (payload : List Nat) : Except FrameError (List Nat) :=
  if payload.length > MAX_FRAME_SIZE then
    .error (.frameTooLarge payload.length MAX_FRAME_SIZE)
  else .ok (u32BeBytes payload.length ++ payload)

theorem length_u32BeBytes (n : Nat) : (u32BeBytes n).length = 4 := rfl

/-- Claim C5: every payload of at most `MAX_FRAME_SIZE` bytes round-trips
through `write_frame`/`read_frame` (with any trailing stream preserved);
larger payloads are refused by `write_frame` without writing anything; and a
stream whose 4-byte big-endian header exceeds `MAX_FRAME_SIZE` makes
`read_frame` return `FrameTooLarge` after consuming only the header, without
reading the body. -/
theorem frame_roundtrip_and_cap (payload rest s : List Nat) :
    (payload.length ≤ MAX_FRAME_SIZE →
      ∃ w, write_frame payload = .ok w ∧ read_frame (w ++ rest) = (.ok payload, rest)) ∧
    (payload.length > MAX_FRAME_SIZE →
      write_frame payload = .error (.frameTooLarge payload.length MAX_FRAME_SIZE)) ∧
    (4 ≤ s.length → beVal (s.take 4) > MAX_FRAME_SIZE →
      read_frame s = (.error (.frameTooLarge (beVal (s.take 4)) MAX_FRAME_SIZE), s.drop 4)) := by
  refine ⟨fun hle => ?_, fun hgt => ?_, fun hs4 hhdr => ?_⟩
  · refine ⟨u32BeBytes payload.length ++ payload, ?_, ?_⟩
    · simp [write_frame, Nat.not_lt.mpr hle]
    · have hlen4 : (u32BeBytes payload.length).length = 4 := rfl
      have hdrop : ((u32BeBytes payload.length ++ payload) ++ rest).drop 4 =
          payload ++ rest := by
        rw [List.append_assoc]
        exact List.drop_left' hlen4
      have hval : beVal (((u32BeBytes payload.length ++ payload) ++ rest).take 4) =
          payload.length := by
        rw [List.append_assoc, List.take_left' hlen4]
        exact beVal_u32BeBytes _ (by
          have : MAX_FRAME_SIZE < 2 ^ 32 := by decide
          omega)
      have hlen : ¬ ((u32BeBytes payload.length ++ payload) ++ rest).length < 4 := by
        simp [List.length_append, hlen4]
      unfold read_frame
      rw [if_neg hlen, hval, hdrop]
      rw [if_neg (by omega)]
      rw [if_neg (by simp only [List.length_append]; omega)]
      rw [List.take_left, List.drop_left]
  · simp [write_frame, hgt]
  · have hlen : ¬ s.length < 4 := by omega
    unfold read_frame
    rw [if_neg hlen, if_pos hhdr]

/-- Closed instance of `frame_roundtrip_and_cap`: the payload `[1, 2, 3]`
round-trips, an oversize payload is refused, and an oversize header is
rejected after the 4 header bytes. -/
theorem frame_roundtrip_and_cap_witness :
    (∃ w, write_frame [1, 2, 3] = .ok w ∧
      read_frame (w ++ [9]) = (.ok [1, 2, 3], [9])) ∧
    write_frame (List.replicate (MAX_FRAME_SIZE + 1) 0) =
      .error (.frameTooLarge (MAX_FRAME_SIZE + 1) MAX_FRAME_SIZE) ∧
    read_frame [0, 4, 0, 1, 7] =
      (.error (.frameTooLarge (MAX_FRAME_SIZE + 1) MAX_FRAME_SIZE), [7]) := by
  refine ⟨(frame_roundtrip_and_cap [1, 2, 3] [9] []).1 (by decide), ?_, ?_⟩
  · have h := (frame_roundtrip_and_cap (List.replicate (MAX_FRAME_SIZE + 1) 0) [] []).2.1
    simpa using h (by simp)
  · have h := (frame_roundtrip_and_cap [] [] [0, 4, 0, 1, 7]).2.2
    simpa using h (by decide) (by decide)

/-! ## Envelope codec (protocol.rs)

Decoders consume a byte stream and return the value together with the
unconsumed remainder, mirroring the Rust slice-reader. -/

/-- Errors of the protocol layer (`ProtocolError` in protocol.rs). -/
inductive ProtocolError where
  | io : ProtocolError
  | badRequest (msg : String) : ProtocolError
deriving DecidableEq, Repr

/-- Message types on the wire (`MessageType` in protocol.rs). -/
inductive MessageType where
  | register | invoke | result | error
deriving DecidableEq, Repr

/-- Wire value of a message type. -/
def MessageType.toU16 : MessageType → Nat
  | .register => 1
  | .invoke => 2
  | .result => 3
  | .error => 4

/-- The `MessageType::from_u16`. -/
def MessageType.fromU16 (v : Nat) : Except ProtocolError MessageType :=
  match v with
  | 1 => .ok .register
  | 2 => .ok .invoke
  | 3 => .ok .result
  | 4 => .ok .error
  | _ => .error (.badRequest "unknown message type")

/-- Error codes of the protocol (`ErrorCode` in protocol.rs). -/
inductive ErrorCode where
  | unauthenticated | replay | denied | unknownAction | noRepeater | badRequest | internal
deriving DecidableEq, Repr

/-- Wire value of an error code. -/
def ErrorCode.toU16 : ErrorCode → Nat
  | .unauthenticated => 1
  | .replay => 2
  | .denied => 3
  | .unknownAction => 4
  | .noRepeater => 5
  | .badRequest => 6
  | .internal => 7

/-- Inverse of `ErrorCode.toU16`, as in `ErrorBody::decode`. -/
def ErrorCode.fromU16 (v : Nat) : Except ProtocolError ErrorCode :=
  match v with
  | 1 => .ok .unauthenticated
  | 2 => .ok .replay
  | 3 => .ok .denied
  | 4 => .ok .unknownAction
  | 5 => .ok .noRepeater
  | 6 => .ok .badRequest
  | 7 => .ok .internal
  | _ => .error (.badRequest "unknown error code")

/-- The `read_exact` on a byte stream: take `n` bytes or fail with an IO error. -/
def readExact (n : Nat) (s : List Nat) : Except ProtocolError (List Nat × List Nat) :=
  if s.length < n then .error .io else .ok (s.take n, s.drop n)

/-- Read a big-endian `u32`. -/
def readU32Be (s : List Nat) : Except ProtocolError (Nat × List Nat) := do
  let (b, rest) ← readExact 4 s
  .ok (beVal b, rest)

/-- Read a little-endian `u16`. -/
def readU16Le (s : List Nat) : Except ProtocolError (Nat × List Nat) := do
  let (b, rest) ← readExact 2 s
  .ok (leVal b, rest)

/-- Read a little-endian `u32`. -/
def readU32Le (s : List Nat) : Except ProtocolError (Nat × List Nat) := do
  let (b, rest) ← readExact 4 s
  .ok (leVal b, rest)

/-- Read a little-endian `u64`. -/
def readU64Le (s : List Nat) : Except ProtocolError (Nat × List Nat) := do
  let (b, rest) ← readExact 8 s
  .ok (leVal b, rest)

/-- The `read_bstr`: big-endian `u32` length, capped at `MAX_FRAME_SIZE`, then
that many bytes. -/
def read_bstr (s : List Nat) : Except ProtocolError (List Nat × List Nat) := do
  let (len, rest) ← readU32Be s
  if len > MAX_FRAME_SIZE then .error (.badRequest "bstr too large")
  else readExact len rest

/-- The `write_bstr`: refuse byte strings above `MAX_FRAME_SIZE`, else emit the
big-endian `u32` length followed by the bytes. -/
def write_bstr (b : List Nat) : Except ProtocolError (List Nat) :=
  if b.length > MAX_FRAME_SIZE then .error (.badRequest "bstr too large")
  else .ok (u32BeBytes b.length ++ b)

/-- The 4-byte ASCII magic `TRT1`. -/
def ENVELOPE_MAGIC : List Nat := [84, 82, 84, 49]

/-- The single supported protocol version. -/
def PROTOCOL_VERSION : Nat := 1

/-- The signed message envelope (`Envelope` in protocol.rs).  The signature is
a byte list; decoding enforces that it has exactly 64 bytes. -/
structure Envelope where
  msg_type : MessageType
  principal : List Nat
  ts_ms : Nat
  nonce : List Nat
  body : List Nat
  sig : List Nat
deriving DecidableEq, Repr

/-- The `Envelope::decode`: magic, version, type, `principal`, `ts_ms`, `nonce`,
`body`, 64-byte `sig`; any remaining input is ignored. -/
def Envelope.decode (s : List Nat) : Except ProtocolError Envelope := do
  let (magic, s) ← readExact 4 s
  if magic ≠ ENVELOPE_MAGIC then .error (.badRequest "bad magic")
  else do
    let (version, s) ← readU16Le s
    if version ≠ PROTOCOL_VERSION then .error (.badRequest "bad version")
    else do
      let (tv, s) ← readU16Le s
      let t ← MessageType.fromU16 tv
      let (principal, s) ← read_bstr s
      let (ts_ms, s) ← readU64Le s
      let (nonce, s) ← read_bstr s
      let (body, s) ← read_bstr s
      let (sigBytes, _) ← read_bstr s
      if sigBytes.length ≠ 64 then .error (.badRequest "bad signature length")
      else .ok { msg_type := t, principal, ts_ms, nonce, body, sig := sigBytes }

/-- The `Envelope::encode`: the serialized fields in order. -/
def Envelope.encode (e : Envelope) : Except ProtocolError (List Nat) := do
  let p ← write_bstr e.principal
  let n ← write_bstr e.nonce
  let b ← write_bstr e.body
  let sg ← write_bstr e.sig
  .ok (ENVELOPE_MAGIC ++ u16LeBytes PROTOCOL_VERSION ++ u16LeBytes e.msg_type.toU16 ++
    p ++ u64LeBytes e.ts_ms ++ n ++ b ++ sg)

/-- The `RegisterBody` (protocol.rs). -/
structure RegisterBody where
  repeater_id : List Nat
  actions : List (List Nat)
deriving DecidableEq, Repr

/-- Read `count` consecutive `bstr` action names. -/
def readActionList : Nat → List Nat → Except ProtocolError (List (List Nat) × List Nat)
  | 0, s => .ok ([], s)
  | k + 1, s => do
    let (a, s) ← read_bstr s
    let (rest, s) ← readActionList k s
    .ok (a :: rest, s)

/-- Write each action name as a `bstr`, in order. -/
def writeActionList : List (List Nat) → Except ProtocolError (List Nat)
  | [] => .ok []
  | a :: rest => do
    let ab ← write_bstr a
    let rb ← writeActionList rest
    .ok (ab ++ rb)

/-- The `RegisterBody::decode`: `repeater_id` bstr, `u32` LE count, then that many
action-name bstrs. -/
def RegisterBody.decode (s : List Nat) : Except ProtocolError RegisterBody := do
  let (repeater_id, s) ← read_bstr s
  let (count, s) ← readU32Le s
  let (actions, _) ← readActionList count s
  .ok { repeater_id, actions }

/-- The `RegisterBody::encode`. -/
def RegisterBody.encode (b : RegisterBody) : Except ProtocolError (List Nat) := do
  let rid ← write_bstr b.repeater_id
  let acts ← writeActionList b.actions
  .ok (rid ++ u32LeBytes b.actions.length ++ acts)

/-- The `InvokeBody` (protocol.rs). -/
structure InvokeBody where
  request_id : List Nat
  action : List Nat
  params : List Nat
deriving DecidableEq, Repr

/-- The `InvokeBody::decode`: three consecutive bstrs. -/
def InvokeBody.decode (s : List Nat) : Except ProtocolError InvokeBody := do
  let (request_id, s) ← read_bstr s
  let (action, s) ← read_bstr s
  let (params, _) ← read_bstr s
  .ok { request_id, action, params }

/-- The `InvokeBody::encode`. -/
def InvokeBody.encode (b : InvokeBody) : Except ProtocolError (List Nat) := do
  let r ← write_bstr b.request_id
  let a ← write_bstr b.action
  let p ← write_bstr b.params
  .ok (r ++ a ++ p)

/-- The `ResultBody` (protocol.rs). -/
structure ResultBody where
  request_id : List Nat
  result : List Nat
deriving DecidableEq, Repr

/-- The `ResultBody::decode`: two consecutive bstrs. -/
def ResultBody.decode (s : List Nat) : Except ProtocolError ResultBody := do
  let (request_id, s) ← read_bstr s
  let (result, _) ← read_bstr s
  .ok { request_id, result }

/-- The `ResultBody::encode`. -/
def ResultBody.encode (b : ResultBody) : Except ProtocolError (List Nat) := do
  let r ← write_bstr b.request_id
  let v ← write_bstr b.result
  .ok (r ++ v)

/-- The `ErrorBody` (protocol.rs). -/
structure ErrorBody where
  request_id : List Nat
  code : ErrorCode
  message : List Nat
deriving DecidableEq, Repr

/-- The `ErrorBody::decode`: bstr, `u16` LE code, bstr. -/
def ErrorBody.decode (s : List Nat) : Except ProtocolError ErrorBody := do
  let (request_id, s) ← read_bstr s
  let (cv, s) ← readU16Le s
  let (message, _) ← read_bstr s
  let code ← ErrorCode.fromU16 cv
  .ok { request_id, code, message }

/-- The `ErrorBody::encode`. -/
def ErrorBody.encode (b : ErrorBody) : Except ProtocolError (List Nat) := do
  let r ← write_bstr b.request_id
  let m ← write_bstr b.message
  .ok (r ++ u16LeBytes b.code.toU16 ++ m)

/-! ### Round-trip lemmas for the codec primitives -/

/-- Decidable equality for `Except`, used to evaluate results on concrete
inputs. -/
instance exceptDecidableEq {ε α : Type} [DecidableEq ε] [DecidableEq α] :
    DecidableEq (Except ε α) := fun x y =>
  match x, y with
  | .ok a, .ok b =>
    if h : a = b then .isTrue (by rw [h]) else .isFalse (fun he => h (by injection he))
  | .error a, .error b =>
    if h : a = b then .isTrue (by rw [h]) else .isFalse (fun he => h (by injection he))
  | .ok _, .error _ => .isFalse (fun he => by injection he)
  | .error _, .ok _ => .isFalse (fun he => by injection he)

theorem okBind {ε α β : Type} (a : α) (f : α → Except ε β) :
    (Except.ok a : Except ε α) >>= f = f a := rfl

theorem errBind {ε α β : Type} (e : ε) (f : α → Except ε β) :
    (Except.error e : Except ε α) >>= f = .error e := rfl

theorem readExact_append {l : List Nat} {n : Nat} (r : List Nat) (h : l.length = n) :
    readExact n (l ++ r) = .ok (l, r) := by
  unfold readExact
  rw [if_neg (by simp only [List.length_append]; omega)]
  rw [List.take_left' h, List.drop_left' h]

theorem readU16Le_append {v : Nat} (r : List Nat) (h : v < 2 ^ 16) :
    readU16Le (u16LeBytes v ++ r) = .ok (v, r) := by
  have : readExact 2 (u16LeBytes v ++ r) = .ok (u16LeBytes v, r) := readExact_append r rfl
  simp [readU16Le, this, okBind, leVal_u16LeBytes v h]

theorem readU32Be_append {v : Nat} (r : List Nat) (h : v < 2 ^ 32) :
    readU32Be (u32BeBytes v ++ r) = .ok (v, r) := by
  have : readExact 4 (u32BeBytes v ++ r) = .ok (u32BeBytes v, r) := readExact_append r rfl
  simp [readU32Be, this, okBind, beVal_u32BeBytes v h]

theorem readU32Le_append {v : Nat} (r : List Nat) (h : v < 2 ^ 32) :
    readU32Le (u32LeBytes v ++ r) = .ok (v, r) := by
  have : readExact 4 (u32LeBytes v ++ r) = .ok (u32LeBytes v, r) := readExact_append r rfl
  simp [readU32Le, this, okBind, leVal_u32LeBytes v h]

theorem readU64Le_append {v : Nat} (r : List Nat) (h : v < 2 ^ 64) :
    readU64Le (u64LeBytes v ++ r) = .ok (v, r) := by
  have : readExact 8 (u64LeBytes v ++ r) = .ok (u64LeBytes v, r) := readExact_append r rfl
  simp [readU64Le, this, okBind, leVal_u64LeBytes v h]

theorem MAX_FRAME_SIZE_lt : MAX_FRAME_SIZE < 2 ^ 32 := by decide

theorem read_bstr_append {b : List Nat} (r : List Nat) (h : b.length ≤ MAX_FRAME_SIZE) :
    read_bstr (u32BeBytes b.length ++ (b ++ r)) = .ok (b, r) := by
  have h32 : b.length < 2 ^ 32 := by have := MAX_FRAME_SIZE_lt; omega
  have h1 : readU32Be (u32BeBytes b.length ++ (b ++ r)) = .ok (b.length, b ++ r) :=
    readU32Be_append _ h32
  simp [read_bstr, h1, okBind, Nat.not_lt.mpr h, readExact_append r rfl]

theorem write_bstr_ok {b : List Nat} (h : b.length ≤ MAX_FRAME_SIZE) :
    write_bstr b = .ok (u32BeBytes b.length ++ b) := by
  simp [write_bstr, Nat.not_lt.mpr h]

theorem messageType_fromU16_toU16 (m : MessageType) : MessageType.fromU16 m.toU16 = .ok m := by
  cases m <;> rfl

theorem messageType_toU16_lt (m : MessageType) : m.toU16 < 2 ^ 16 := by
  cases m <;> decide

theorem errorCode_fromU16_toU16 (c : ErrorCode) : ErrorCode.fromU16 c.toU16 = .ok c := by
  cases c <;> rfl

theorem errorCode_toU16_lt (c : ErrorCode) : c.toU16 < 2 ^ 16 := by
  cases c <;> decide

/-- The byte string produced by a successful `Envelope::encode`. -/
def envelopeBytes (e : Envelope) : List Nat :=
  ENVELOPE_MAGIC ++ u16LeBytes PROTOCOL_VERSION ++ u16LeBytes e.msg_type.toU16 ++
  u32BeBytes e.principal.length ++ e.principal ++ u64LeBytes e.ts_ms ++
  u32BeBytes e.nonce.length ++ e.nonce ++ u32BeBytes e.body.length ++ e.body ++
  u32BeBytes e.sig.length ++ e.sig

theorem Envelope.encode_eq {e : Envelope}
    (hp : e.principal.length ≤ MAX_FRAME_SIZE) (hn : e.nonce.length ≤ MAX_FRAME_SIZE)
    (hb : e.body.length ≤ MAX_FRAME_SIZE) (hsg : e.sig.length ≤ MAX_FRAME_SIZE) :
    Envelope.encode e = .ok (envelopeBytes e) := by
  simp [Envelope.encode, write_bstr_ok hp, write_bstr_ok hn, write_bstr_ok hb,
    write_bstr_ok hsg, okBind, envelopeBytes, List.append_assoc]

theorem Envelope.decode_envelopeBytes {e : Envelope} (suffix : List Nat)
    (hp : e.principal.length ≤ MAX_FRAME_SIZE) (hn : e.nonce.length ≤ MAX_FRAME_SIZE)
    (hb : e.body.length ≤ MAX_FRAME_SIZE) (hs : e.sig.length = 64) (ht : e.ts_ms < 2 ^ 64) :
    Envelope.decode (envelopeBytes e ++ suffix) = .ok e := by
  have hsg : e.sig.length ≤ MAX_FRAME_SIZE := by rw [hs]; decide
  have hmag : ∀ r, readExact 4 (ENVELOPE_MAGIC ++ r) = .ok (ENVELOPE_MAGIC, r) :=
    fun r => readExact_append r rfl
  have hver : ∀ r, readU16Le (u16LeBytes PROTOCOL_VERSION ++ r) = .ok (PROTOCOL_VERSION, r) :=
    fun r => readU16Le_append r (by decide)
  have hmt : ∀ r, readU16Le (u16LeBytes e.msg_type.toU16 ++ r) = .ok (e.msg_type.toU16, r) :=
    fun r => readU16Le_append r (messageType_toU16_lt _)
  have hpr : ∀ r, read_bstr (u32BeBytes e.principal.length ++ (e.principal ++ r)) =
      .ok (e.principal, r) := fun r => read_bstr_append r hp
  have hts : ∀ r, readU64Le (u64LeBytes e.ts_ms ++ r) = .ok (e.ts_ms, r) :=
    fun r => readU64Le_append r ht
  have hno : ∀ r, read_bstr (u32BeBytes e.nonce.length ++ (e.nonce ++ r)) = .ok (e.nonce, r) :=
    fun r => read_bstr_append r hn
  have hbo : ∀ r, read_bstr (u32BeBytes e.body.length ++ (e.body ++ r)) = .ok (e.body, r) :=
    fun r => read_bstr_append r hb
  have hsi : ∀ r, read_bstr (u32BeBytes e.sig.length ++ (e.sig ++ r)) = .ok (e.sig, r) :=
    fun r => read_bstr_append r hsg
  simp only [envelopeBytes, List.append_assoc]
  simp [Envelope.decode, hmag, hver, hmt, hpr, hts, hno, hbo, hsi, okBind,
    messageType_fromU16_toU16]
  simp [hs]

/-- The byte string produced by a successful `writeActionList`. -/
def actionListBytes : List (List Nat) → List Nat
  | [] => []
  | a :: rest => u32BeBytes a.length ++ (a ++ actionListBytes rest)

theorem writeActionList_eq {acts : List (List Nat)}
    (h : ∀ a ∈ acts, a.length ≤ MAX_FRAME_SIZE) :
    writeActionList acts = .ok (actionListBytes acts) := by
  induction acts with
  | nil => rfl
  | cons a rest ih =>
    have ha : a.length ≤ MAX_FRAME_SIZE := h a (List.mem_cons_self a rest)
    have hrest := ih (fun x hx => h x (List.mem_cons_of_mem a hx))
    simp [writeActionList, write_bstr_ok ha, hrest, okBind, actionListBytes,
      List.append_assoc]

theorem readActionList_append {acts : List (List Nat)} (r : List Nat)
    (h : ∀ a ∈ acts, a.length ≤ MAX_FRAME_SIZE) :
    readActionList acts.length (actionListBytes acts ++ r) = .ok (acts, r) := by
  induction acts generalizing r with
  | nil => rfl
  | cons a rest ih =>
    have ha : a.length ≤ MAX_FRAME_SIZE := h a (List.mem_cons_self a rest)
    have hrest := ih r (fun x hx => h x (List.mem_cons_of_mem a hx))
    simp only [actionListBytes, List.length_cons, List.append_assoc]
    simp [readActionList, read_bstr_append _ ha, okBind, hrest]

/-- The byte string produced by a successful `RegisterBody::encode`. -/
def registerBodyBytes (b : RegisterBody) : List Nat :=
  u32BeBytes b.repeater_id.length ++ b.repeater_id ++ u32LeBytes b.actions.length ++
    actionListBytes b.actions

theorem registerBody_decode_encode {b : RegisterBody}
    (hr : b.repeater_id.length ≤ MAX_FRAME_SIZE)
    (ha : ∀ a ∈ b.actions, a.length ≤ MAX_FRAME_SIZE)
    (hc : b.actions.length < 2 ^ 32) :
    RegisterBody.encode b = .ok (registerBodyBytes b) ∧
      RegisterBody.decode (registerBodyBytes b) = .ok b := by
  constructor
  · simp [RegisterBody.encode, write_bstr_ok hr, writeActionList_eq ha, okBind,
      registerBodyBytes, List.append_assoc]
  · have h1 : ∀ r, read_bstr (u32BeBytes b.repeater_id.length ++ (b.repeater_id ++ r)) =
        .ok (b.repeater_id, r) := fun r => read_bstr_append r hr
    have h2 : ∀ r, readU32Le (u32LeBytes b.actions.length ++ r) = .ok (b.actions.length, r) :=
      fun r => readU32Le_append r hc
    have h3 := readActionList_append ([] : List Nat) ha
    simp only [registerBodyBytes, List.append_assoc]
    simp [RegisterBody.decode, h1, h2, okBind, List.append_nil] at h3 ⊢
    simp [h3, okBind]

/-- The byte string produced by a successful `InvokeBody::encode`. -/
def invokeBodyBytes (b : InvokeBody) : List Nat :=
  u32BeBytes b.request_id.length ++ b.request_id ++ u32BeBytes b.action.length ++ b.action ++
    u32BeBytes b.params.length ++ b.params

theorem invokeBody_decode_encode {b : InvokeBody}
    (hr : b.request_id.length ≤ MAX_FRAME_SIZE) (ha : b.action.length ≤ MAX_FRAME_SIZE)
    (hp : b.params.length ≤ MAX_FRAME_SIZE) :
    InvokeBody.encode b = .ok (invokeBodyBytes b) ∧
      InvokeBody.decode (invokeBodyBytes b) = .ok b := by
  constructor
  · simp [InvokeBody.encode, write_bstr_ok hr, write_bstr_ok ha, write_bstr_ok hp, okBind,
      invokeBodyBytes, List.append_assoc]
  · have h1 : ∀ r, read_bstr (u32BeBytes b.request_id.length ++ (b.request_id ++ r)) =
        .ok (b.request_id, r) := fun r => read_bstr_append r hr
    have h2 : ∀ r, read_bstr (u32BeBytes b.action.length ++ (b.action ++ r)) =
        .ok (b.action, r) := fun r => read_bstr_append r ha
    have h3 : read_bstr (u32BeBytes b.params.length ++ (b.params ++ [])) =
        .ok (b.params, []) := read_bstr_append [] hp
    simp only [invokeBodyBytes, List.append_assoc]
    simp only [List.append_nil] at h3
    simp [InvokeBody.decode, h1, h2, h3, okBind]

/-- The byte string produced by a successful `ResultBody::encode`. -/
def resultBodyBytes (b : ResultBody) : List Nat :=
  u32BeBytes b.request_id.length ++ b.request_id ++ u32BeBytes b.result.length ++ b.result

theorem resultBody_decode_encode {b : ResultBody}
    (hr : b.request_id.length ≤ MAX_FRAME_SIZE) (hv : b.result.length ≤ MAX_FRAME_SIZE) :
    ResultBody.encode b = .ok (resultBodyBytes b) ∧
      ResultBody.decode (resultBodyBytes b) = .ok b := by
  constructor
  · simp [ResultBody.encode, write_bstr_ok hr, write_bstr_ok hv, okBind,
      resultBodyBytes, List.append_assoc]
  · have h1 : ∀ r, read_bstr (u32BeBytes b.request_id.length ++ (b.request_id ++ r)) =
        .ok (b.request_id, r) := fun r => read_bstr_append r hr
    have h2 : read_bstr (u32BeBytes b.result.length ++ (b.result ++ [])) =
        .ok (b.result, []) := read_bstr_append [] hv
    simp only [resultBodyBytes, List.append_assoc]
    simp only [List.append_nil] at h2
    simp [ResultBody.decode, h1, h2, okBind]

/-- The byte string produced by a successful `ErrorBody::encode`. -/
def errorBodyBytes (b : ErrorBody) : List Nat :=
  u32BeBytes b.request_id.length ++ b.request_id ++ u16LeBytes b.code.toU16 ++
    u32BeBytes b.message.length ++ b.message

theorem errorBody_decode_encode {b : ErrorBody}
    (hr : b.request_id.length ≤ MAX_FRAME_SIZE) (hm : b.message.length ≤ MAX_FRAME_SIZE) :
    ErrorBody.encode b = .ok (errorBodyBytes b) ∧
      ErrorBody.decode (errorBodyBytes b) = .ok b := by
  constructor
  · simp [ErrorBody.encode, write_bstr_ok hr, write_bstr_ok hm, okBind,
      errorBodyBytes, List.append_assoc]
  · have h1 : ∀ r, read_bstr (u32BeBytes b.request_id.length ++ (b.request_id ++ r)) =
        .ok (b.request_id, r) := fun r => read_bstr_append r hr
    have h2 : ∀ r, readU16Le (u16LeBytes b.code.toU16 ++ r) = .ok (b.code.toU16, r) :=
      fun r => readU16Le_append r (errorCode_toU16_lt b.code)
    have h3 : read_bstr (u32BeBytes b.message.length ++ (b.message ++ [])) =
        .ok (b.message, []) := read_bstr_append [] hm
    simp only [errorBodyBytes, List.append_assoc]
    simp only [List.append_nil] at h3
    simp [ErrorBody.decode, h1, h2, h3, okBind, errorCode_fromU16_toU16]

/-- Claim C6: every envelope whose fields fit the `bstr` cap (with a 64-byte
signature and a `u64` timestamp) round-trips through `encode`/`decode`, and
the same round-trip holds for each body variant: `RegisterBody`,
`InvokeBody`, `ResultBody`, `ErrorBody`. -/
theorem envelope_and_bodies_roundtrip
    (E : Envelope) (rb : RegisterBody) (ib : InvokeBody) (sb : ResultBody) (eb : ErrorBody)
    (hEp : E.principal.length ≤ MAX_FRAME_SIZE) (hEn : E.nonce.length ≤ MAX_FRAME_SIZE)
    (hEb : E.body.length ≤ MAX_FRAME_SIZE) (hEs : E.sig.length = 64) (hEt : E.ts_ms < 2 ^ 64)
    (hr1 : rb.repeater_id.length ≤ MAX_FRAME_SIZE)
    (hr2 : ∀ a ∈ rb.actions, a.length ≤ MAX_FRAME_SIZE) (hr3 : rb.actions.length < 2 ^ 32)
    (hi1 : ib.request_id.length ≤ MAX_FRAME_SIZE) (hi2 : ib.action.length ≤ MAX_FRAME_SIZE)
    (hi3 : ib.params.length ≤ MAX_FRAME_SIZE)
    (hs1 : sb.request_id.length ≤ MAX_FRAME_SIZE) (hs2 : sb.result.length ≤ MAX_FRAME_SIZE)
    (he1 : eb.request_id.length ≤ MAX_FRAME_SIZE) (he2 : eb.message.length ≤ MAX_FRAME_SIZE) :
    (Envelope.encode E >>= Envelope.decode) = .ok E ∧
    (RegisterBody.encode rb >>= RegisterBody.decode) = .ok rb ∧
    (InvokeBody.encode ib >>= InvokeBody.decode) = .ok ib ∧
    (ResultBody.encode sb >>= ResultBody.decode) = .ok sb ∧
    (ErrorBody.encode eb >>= ErrorBody.decode) = .ok eb := by
  have hEsg : E.sig.length ≤ MAX_FRAME_SIZE := by rw [hEs]; decide
  have hdec := Envelope.decode_envelopeBytes [] hEp hEn hEb hEs hEt
  rw [List.append_nil] at hdec
  refine ⟨?_, ?_, ?_, ?_, ?_⟩
  · rw [Envelope.encode_eq hEp hEn hEb hEsg, okBind, hdec]
  · obtain ⟨he, hd⟩ := registerBody_decode_encode hr1 hr2 hr3
    rw [he, okBind, hd]
  · obtain ⟨he, hd⟩ := invokeBody_decode_encode hi1 hi2 hi3
    rw [he, okBind, hd]
  · obtain ⟨he, hd⟩ := resultBody_decode_encode hs1 hs2
    rw [he, okBind, hd]
  · obtain ⟨he, hd⟩ := errorBody_decode_encode he1 he2
    rw [he, okBind, hd]

/-- Sample envelope used by the codec witnesses. -/
def sampleEnvelope : Envelope :=
  { msg_type := .invoke, principal := [97], ts_ms := 5, nonce := [9], body := [7],
    sig := List.replicate 64 0 }

/-- Sample register body used by the codec witnesses. -/
def sampleRegisterBody : RegisterBody := { repeater_id := [114], actions := [[101], [102]] }

/-- Sample invoke body used by the codec witnesses. -/
def sampleInvokeBody : InvokeBody := { request_id := [1], action := [101], params := [3] }

/-- Sample result body used by the codec witnesses. -/
def sampleResultBody : ResultBody := { request_id := [1], result := [4] }

/-- Sample error body used by the codec witnesses. -/
def sampleErrorBody : ErrorBody := { request_id := [1], code := .denied, message := [5] }

/-- Closed instance of `envelope_and_bodies_roundtrip` at small concrete
values of the envelope and each body variant. -/
theorem envelope_and_bodies_roundtrip_witness :
    (Envelope.encode sampleEnvelope >>= Envelope.decode) = .ok sampleEnvelope ∧
    (RegisterBody.encode sampleRegisterBody >>= RegisterBody.decode) = .ok sampleRegisterBody ∧
    (InvokeBody.encode sampleInvokeBody >>= InvokeBody.decode) = .ok sampleInvokeBody ∧
    (ResultBody.encode sampleResultBody >>= ResultBody.decode) = .ok sampleResultBody ∧
    (ErrorBody.encode sampleErrorBody >>= ErrorBody.decode) = .ok sampleErrorBody :=
  envelope_and_bodies_roundtrip sampleEnvelope sampleRegisterBody sampleInvokeBody
    sampleResultBody sampleErrorBody
    (by decide) (by decide) (by decide) (by simp [sampleEnvelope]) (by decide)
    (by decide) (by decide) (by decide)
    (by decide) (by decide) (by decide)
    (by decide) (by decide)
    (by decide) (by decide)

/-- Claim C10: `Envelope::decode` reads exactly the eight serialized fields
and ignores any remaining input: appending an arbitrary byte suffix to an
encoded envelope still decodes to the same envelope, so distinct wire byte
strings decode to the same envelope. -/
theorem envelope_decode_ignores_trailing_bytes (E : Envelope) (s : List Nat)
    (hEp : E.principal.length ≤ MAX_FRAME_SIZE) (hEn : E.nonce.length ≤ MAX_FRAME_SIZE)
    (hEb : E.body.length ≤ MAX_FRAME_SIZE) (hEs : E.sig.length = 64) (hEt : E.ts_ms < 2 ^ 64) :
    ∃ w, Envelope.encode E = .ok w ∧ Envelope.decode (w ++ s) = .ok E ∧
      (s ≠ [] → w ++ s ≠ w) := by
  have hEsg : E.sig.length ≤ MAX_FRAME_SIZE := by rw [hEs]; decide
  refine ⟨envelopeBytes E, Envelope.encode_eq hEp hEn hEb hEsg,
    Envelope.decode_envelopeBytes s hEp hEn hEb hEs hEt, fun hne heq => hne ?_⟩
  have := congrArg List.length heq
  simp only [List.length_append] at this
  exact List.eq_nil_of_length_eq_zero (by omega)

/-- Closed instance of `envelope_decode_ignores_trailing_bytes`: a concrete
envelope still decodes after three junk bytes are appended, and the two wire
strings differ. -/
theorem envelope_decode_ignores_trailing_bytes_witness :
    ∃ w, Envelope.encode sampleEnvelope = .ok w ∧
      Envelope.decode (w ++ [0, 1, 2]) = .ok sampleEnvelope ∧
      ([0, 1, 2] ≠ ([] : List Nat) → w ++ [0, 1, 2] ≠ w) :=
  envelope_decode_ignores_trailing_bytes sampleEnvelope [0, 1, 2]
    (by decide) (by decide) (by decide) (by simp [sampleEnvelope]) (by decide)

/-! ## Canonical signing (crypto.rs) -/

/-- The UTF-8 bytes of an ASCII string, as `Nat`s. -/
def strBytes (s : String) : List Nat := s.data.map Char.toNat

/-- The decimal ASCII digits of a natural number, as produced by
`to_string` on a `u64`. -/
def decimalAscii (n : Nat) : List Nat := (toString n).data.map Char.toNat

/-- The `canonical_signing_bytes` (crypto.rs), built by the same sequence of
appends as the Rust code: principal, `\n`, decimal `ts_ms`, `\n`, nonce,
`\n`, body. -/
def canonical_signing_bytes (principal : List Nat) (ts_ms : Nat)
    (nonce body : List Nat) : List Nat :=
  let out := principal
  let out := out ++ [10]
  let out := out ++ decimalAscii ts_ms
  let out := out ++ [10]
  let out := out ++ nonce
  let out := out ++ [10]
  let out := out ++ body
  out

/-- Claim C7: the canonical signing bytes are exactly
`principal ++ "\n" ++ decimal(ts_ms) ++ "\n" ++ nonce ++ "\n" ++ body`, the
three newline separators are present even when every field is empty, there
is no trailing newline, and the spec's concrete example
`canonical_signing_bytes("agent-1", 123, "nonce", "body")` yields the bytes
of `"agent-1\n123\nnonce\nbody"`. -/
theorem canonical_signing_bytes_layout (principal nonce body : List Nat) (ts_ms : Nat) :
    canonical_signing_bytes principal ts_ms nonce body =
      principal ++ [10] ++ decimalAscii ts_ms ++ [10] ++ nonce ++ [10] ++ body ∧
    canonical_signing_bytes [] 0 [] [] = [10, 48, 10, 10] ∧
    canonical_signing_bytes (strBytes "agent-1") 123 (strBytes "nonce") (strBytes "body") =
      strBytes "agent-1\n123\nnonce\nbody" := by
  refine ⟨rfl, by decide, by decide⟩

/-! ## Association lists

Hash maps of the Rust code are modelled as association lists with
insert-replaces-existing-key semantics, so that key sets stay duplicate-free
when built through the API. -/

/-- Lookup of the first binding of a key. -/
def lookupA {K V : Type} [DecidableEq K] : List (K × V) → K → Option V
  | [], _ => none
  | (k', v) :: rest, k => if k = k' then some v else lookupA rest k

/-- Insert a binding, replacing the binding of an existing key. -/
def insertA {K V : Type} [DecidableEq K] : List (K × V) → K → V → List (K × V)
  | [], k, v => [(k, v)]
  | (k', v') :: rest, k, v =>
    if k = k' then (k, v) :: rest else (k', v') :: insertA rest k v

/-- Remove the first binding of a key. -/
def removeA {K V : Type} [DecidableEq K] : List (K × V) → K → List (K × V)
  | [], _ => []
  | (k', v') :: rest, k => if k = k' then rest else (k', v') :: removeA rest k

theorem lookupA_insertA_self {K V : Type} [DecidableEq K] (m : List (K × V)) (k : K) (v : V) :
    lookupA (insertA m k v) k = some v := by
  induction m with
  | nil => simp [insertA, lookupA]
  | cons kv rest ih =>
    by_cases h : k = kv.1
    · simp [insertA, h, lookupA]
    · simp [insertA, h, lookupA, ih]

theorem lookupA_insertA_ne {K V : Type} [DecidableEq K] (m : List (K × V)) {k k' : K} (v : V)
    (h : k ≠ k') : lookupA (insertA m k' v) k = lookupA m k := by
  induction m with
  | nil => simp [insertA, lookupA, h]
  | cons kv rest ih =>
    by_cases hk : k' = kv.1
    · simp [insertA, hk, lookupA, h, hk ▸ h]
    · simp only [insertA, if_neg hk, lookupA]
      by_cases hk2 : k = kv.1
      · simp [hk2]
      · simp [hk2, ih]

theorem lookupA_removeA_ne {K V : Type} [DecidableEq K] (m : List (K × V)) {k k' : K}
    (h : k ≠ k') : lookupA (removeA m k') k = lookupA m k := by
  induction m with
  | nil => simp [removeA]
  | cons kv rest ih =>
    by_cases hk : k' = kv.1
    · simp [removeA, hk, lookupA, hk ▸ h]
    · simp only [removeA, if_neg hk, lookupA]
      by_cases hk2 : k = kv.1
      · simp [hk2]
      · simp [hk2, ih]

theorem lookupA_removeA_none {K V : Type} [DecidableEq K] {m : List (K × V)} {k k' : K}
    (h : lookupA m k = none) : lookupA (removeA m k') k = none := by
  induction m with
  | nil => simp [removeA, lookupA]
  | cons kv rest ih =>
    simp only [lookupA] at h
    by_cases hk2 : k = kv.1
    · simp [hk2] at h
    · simp only [if_neg hk2] at h
      by_cases hk : k' = kv.1
      · simp [removeA, hk, lookupA, hk2, h]
      · simp [removeA, hk, lookupA, hk2, ih h]

theorem lookupA_eq_none_of_not_memKeys {K V : Type} [DecidableEq K] {m : List (K × V)} {k : K}
    (h : k ∉ m.map Prod.fst) : lookupA m k = none := by
  induction m with
  | nil => rfl
  | cons kv rest ih =>
    simp only [List.map_cons, List.mem_cons, not_or] at h
    simp [lookupA, h.1, ih h.2]

theorem memKeys_of_lookupA_isSome {K V : Type} [DecidableEq K] {m : List (K × V)} {k : K}
    (h : lookupA m k ≠ none) : k ∈ m.map Prod.fst := by
  by_contra hmem
  exact h (lookupA_eq_none_of_not_memKeys hmem)

/-- A key-unique association list (the representation invariant of a map). -/
def NodupKeys {K V : Type} (m : List (K × V)) : Prop := (m.map Prod.fst).Nodup

theorem memKeys_insertA {K V : Type} [DecidableEq K] (m : List (K × V)) (k k' : K) (v : V) :
    k' ∈ (insertA m k v).map Prod.fst ↔ k' ∈ m.map Prod.fst ∨ k' = k := by
  induction m with
  | nil => simp [insertA]
  | cons kv rest ih =>
    obtain ⟨k0, v0⟩ := kv
    by_cases hk : k = k0
    · subst hk
      have he : insertA ((k, v0) :: rest) k v = (k, v) :: rest := by
        simp [insertA]
      rw [he]
      simp only [List.map_cons, List.mem_cons]
      tauto
    · have he : insertA ((k0, v0) :: rest) k v = (k0, v0) :: insertA rest k v := by
        simp [insertA, hk]
      rw [he]
      simp only [List.map_cons, List.mem_cons, ih]
      tauto

theorem NodupKeys_insertA {K V : Type} [DecidableEq K] {m : List (K × V)} (k : K) (v : V)
    (h : NodupKeys m) : NodupKeys (insertA m k v) := by
  induction m with
  | nil => simp [insertA, NodupKeys]
  | cons kv rest ih =>
    simp only [NodupKeys, List.map_cons, List.nodup_cons] at h
    by_cases hk : k = kv.1
    · simpa [insertA, hk, NodupKeys] using h
    · simp only [insertA, if_neg hk, NodupKeys, List.map_cons, List.nodup_cons]
      refine ⟨?_, ih h.2⟩
      rw [memKeys_insertA]
      push_neg
      exact ⟨h.1, fun he => hk he.symm⟩

theorem removeA_sublist {K V : Type} [DecidableEq K] (m : List (K × V)) (k : K) :
    (removeA m k).Sublist m := by
  induction m with
  | nil => simp [removeA]
  | cons kv rest ih =>
    by_cases hk : k = kv.1
    · simp only [removeA, if_pos hk]
      exact List.sublist_cons_self kv rest
    · simp only [removeA, if_neg hk]
      exact ih.cons₂ kv

theorem NodupKeys_removeA {K V : Type} [DecidableEq K] {m : List (K × V)} (k : K)
    (h : NodupKeys m) : NodupKeys (removeA m k) :=
  ((removeA_sublist m k).map Prod.fst).nodup h

theorem lookupA_removeA_self {K V : Type} [DecidableEq K] {m : List (K × V)} (k : K)
    (h : NodupKeys m) : lookupA (removeA m k) k = none := by
  induction m with
  | nil => rfl
  | cons kv rest ih =>
    simp only [NodupKeys, List.map_cons, List.nodup_cons] at h
    by_cases hk : k = kv.1
    · simp only [removeA, if_pos hk]
      exact lookupA_eq_none_of_not_memKeys (hk ▸ h.1)
    · simp [removeA, hk, lookupA, ih h.2]

/-! ## Replay cache (replay.rs) -/

/-- The `ReplayCache` (replay.rs): the sliding-window nonce tracker.  `seen` maps
principal to a map from nonce to first-seen timestamp; `queue` holds
`(seen_at, principal, nonce)` entries in insertion order for eviction. -/
structure ReplayCache where
  window_ms : Nat
  seen : List (List Nat × List (List Nat × Nat))
  queue : List (Nat × List Nat × List Nat)
deriving DecidableEq, Repr

/-- The `ReplayError` (replay.rs). -/
inductive ReplayError where
  | outsideWindow | replay
deriving DecidableEq, Repr

/-- The `ReplayCache::new`. -/
def ReplayCache.new (window_ms : Nat) : ReplayCache :=
  { window_ms, seen := [], queue := [] }

/-- One seen-map update step of `ReplayCache::evict`: remove `n` from the
per-principal map of `p`, dropping the map when it becomes empty. -/
def evictSeenStep (seen : List (List Nat × List (List Nat × Nat))) (p n : List Nat) :
    List (List Nat × List (List Nat × Nat)) :=
  match lookupA seen p with
  | none => seen
  | some m =>
    let m' := removeA m n
    if m' = [] then removeA seen p else insertA seen p m'

/-- The eviction loop of `ReplayCache::evict`: pop queue-front entries whose
first-seen timestamp is strictly below the cutoff, removing each from the
seen map. -/
def evictGo (cutoff : Nat) :
    List (Nat × List Nat × List Nat) → List (List Nat × List (List Nat × Nat)) →
    List (Nat × List Nat × List Nat) × List (List Nat × List (List Nat × Nat))
  | [], seen => ([], seen)
  | (t, p, n) :: rest, seen =>
    if t ≥ cutoff then ((t, p, n) :: rest, seen)
    else evictGo cutoff rest (evictSeenStep seen p n)

/-- The `ReplayCache::evict` with cutoff `now_ms.saturating_sub(window_ms)`
(saturating subtraction is `Nat` subtraction). -/
def ReplayCache.evict (c : ReplayCache) (now_ms : Nat) : ReplayCache :=
  let r := evictGo (now_ms - c.window_ms) c.queue c.seen
  { c with queue := r.1, seen := r.2 }

/-- Lookup the recorded first-seen timestamp of `(principal, nonce)` in a
seen map. -/
def lookupSeen (seen : List (List Nat × List (List Nat × Nat))) (p n : List Nat) : Option Nat :=
  match lookupA seen p with
  | none => none
  | some m => lookupA m n

/-- Lookup the recorded first-seen timestamp of `(principal, nonce)`. -/
def lookupNonce (c : ReplayCache) (p n : List Nat) : Option Nat :=
  lookupSeen c.seen p n

/-- The `ReplayCache::check_and_record`: reject timestamps outside the window,
evict stale entries, reject a recorded `(principal, nonce)`, otherwise record
it with first-seen `ts_ms` and enqueue it.  Returns the result together with
the updated cache (the eviction persists even when `Replay` is returned). -/
def ReplayCache.check_and_record (c : ReplayCache) (now_ms ts_ms : Nat)
    (principal nonce : List Nat) : Except ReplayError Unit × ReplayCache :=
  if (if now_ms ≥ ts_ms then now_ms - ts_ms else ts_ms - now_ms) > c.window_ms then
    (.error .outsideWindow, c)
  else
    let c' := c.evict now_ms
    let entry := (lookupA c'.seen principal).getD []
    if (lookupA entry nonce).isSome then (.error .replay, c')
    else
      (.ok (),
        { c' with
          seen := insertA c'.seen principal (insertA entry nonce ts_ms),
          queue := c'.queue ++ [(ts_ms, principal, nonce)] })

/-- Well-formedness of a replay cache: it is representable as the Rust hash
maps (key-unique maps at both levels), every queue entry is recorded in the
seen map with its queued timestamp, and no `(principal, nonce)` pair is
queued twice. -/
def ReplayCache.WF (c : ReplayCache) : Prop :=
  NodupKeys c.seen ∧ (∀ pm ∈ c.seen, NodupKeys pm.2) ∧
  (∀ e ∈ c.queue, lookupNonce c e.2.1 e.2.2 = some e.1) ∧
  c.queue.Pairwise (fun a b => a.2 ≠ b.2)

theorem mem_of_lookupA {K V : Type} [DecidableEq K] {m : List (K × V)} {k : K} {v : V}
    (h : lookupA m k = some v) : (k, v) ∈ m := by
  induction m with
  | nil => simp [lookupA] at h
  | cons kv rest ih =>
    simp only [lookupA] at h
    by_cases hk : k = kv.1
    · simp only [if_pos hk] at h
      have hkv : (k, v) = kv := by
        rw [hk, ← Option.some_inj.mp h]
      rw [hkv]
      exact List.mem_cons_self kv rest
    · simp only [if_neg hk] at h
      exact List.mem_cons_of_mem _ (ih h)

theorem mem_insertA {K V : Type} [DecidableEq K] {m : List (K × V)} {k : K} {v : V}
    {pm : K × V} (h : pm ∈ insertA m k v) : pm ∈ m ∨ pm = (k, v) := by
  induction m with
  | nil => simpa [insertA] using h
  | cons kv rest ih =>
    by_cases hk : k = kv.1
    · simp only [insertA, if_pos hk, List.mem_cons] at h
      rcases h with h | h
      · right; exact h
      · left; exact List.mem_cons_of_mem _ h
    · simp only [insertA, if_neg hk, List.mem_cons] at h
      rcases h with h | h
      · left; exact h ▸ List.mem_cons_self kv rest
      · rcases ih h with h1 | h1
        · left; exact List.mem_cons_of_mem _ h1
        · right; exact h1

/-- The `lookupSeen` at a pair other than the evicted one is unchanged by an
eviction step (key-unique outer map required because a whole principal entry
may be dropped). -/
theorem lookupSeen_evictSeenStep_ne {seen : List (List Nat × List (List Nat × Nat))}
    {p n p' n' : List Nat} (hw1 : NodupKeys seen) (hne : (p, n) ≠ (p', n')) :
    lookupSeen (evictSeenStep seen p' n') p n = lookupSeen seen p n := by
  unfold evictSeenStep
  cases hm : lookupA seen p' with
  | none => rfl
  | some m =>
    by_cases hp : p = p'
    · subst hp
      have hn : n ≠ n' := fun he => hne (by rw [he])
      by_cases hempty : removeA m n' = []
      · simp only [if_pos hempty, lookupSeen, lookupA_removeA_self p hw1, hm]
        have : lookupA m n = none := by
          cases m with
          | nil => rfl
          | cons x xs =>
            cases xs with
            | nil =>
              simp only [removeA] at hempty
              by_cases hx : n' = x.1
              · simp [lookupA, hx ▸ hn]
              · simp [if_neg hx] at hempty
            | cons y ys =>
              exfalso
              simp only [removeA] at hempty
              by_cases hx : n' = x.1
              · simp [if_pos hx] at hempty
              · simp [if_neg hx] at hempty
        rw [this]
      · simp only [if_neg hempty, lookupSeen, lookupA_insertA_self, hm]
        exact lookupA_removeA_ne m hn
    · by_cases hempty : removeA m n' = []
      · simp only [if_pos hempty, lookupSeen, lookupA_removeA_ne seen hp]
      · simp only [if_neg hempty, lookupSeen, lookupA_insertA_ne seen _ hp]

/-- The evicted pair is absent from the seen map after an eviction step. -/
theorem lookupSeen_evictSeenStep_self {seen : List (List Nat × List (List Nat × Nat))}
    {p n : List Nat} (hw1 : NodupKeys seen) (hw2 : ∀ pm ∈ seen, NodupKeys pm.2) :
    lookupSeen (evictSeenStep seen p n) p n = none := by
  unfold evictSeenStep
  cases hm : lookupA seen p with
  | none => simp [lookupSeen, hm]
  | some m =>
    have hmn : NodupKeys m := hw2 (p, m) (mem_of_lookupA hm)
    by_cases hempty : removeA m n = []
    · simp [lookupSeen, hempty, lookupA_removeA_self p hw1]
    · simp [lookupSeen, lookupA_insertA_self, lookupA_removeA_self n hmn, hempty]

/-- An absent pair stays absent through an eviction step. -/
theorem lookupSeen_evictSeenStep_none {seen : List (List Nat × List (List Nat × Nat))}
    {p n p' n' : List Nat} (hw1 : NodupKeys seen) (h : lookupSeen seen p n = none) :
    lookupSeen (evictSeenStep seen p' n') p n = none := by
  unfold evictSeenStep
  cases hm : lookupA seen p' with
  | none => exact h
  | some m =>
    by_cases hp : p = p'
    · subst hp
      simp only [lookupSeen, hm] at h
      by_cases hempty : removeA m n' = []
      · simp only [if_pos hempty, lookupSeen, lookupA_removeA_self p hw1]
      · simp only [if_neg hempty, lookupSeen, lookupA_insertA_self]
        exact lookupA_removeA_none h
    · by_cases hempty : removeA m n' = []
      · simp only [if_pos hempty, lookupSeen, lookupA_removeA_ne seen hp]
        simpa [lookupSeen] using h
      · simp only [if_neg hempty, lookupSeen, lookupA_insertA_ne seen _ hp]
        simpa [lookupSeen] using h

/-- Step-level preservation of the key-uniqueness invariants. -/
theorem evictSeenStep_nodup {seen : List (List Nat × List (List Nat × Nat))} {p n : List Nat}
    (hw1 : NodupKeys seen) (hw2 : ∀ pm ∈ seen, NodupKeys pm.2) :
    NodupKeys (evictSeenStep seen p n) ∧ ∀ pm ∈ evictSeenStep seen p n, NodupKeys pm.2 := by
  unfold evictSeenStep
  cases hm : lookupA seen p with
  | none => exact ⟨hw1, hw2⟩
  | some m =>
    have hmn : NodupKeys m := hw2 (p, m) (mem_of_lookupA hm)
    by_cases hempty : removeA m n = []
    · refine ⟨by simpa [hempty] using NodupKeys_removeA p hw1, fun pm hpm => ?_⟩
      simp only [if_pos hempty] at hpm
      exact hw2 pm ((removeA_sublist seen p).mem hpm)
    · refine ⟨by simpa [hempty] using NodupKeys_insertA p (removeA m n) hw1, fun pm hpm => ?_⟩
      simp only [if_neg hempty] at hpm
      rcases mem_insertA hpm with h1 | h1
      · exact hw2 pm h1
      · rw [h1]
        exact NodupKeys_removeA n hmn

/-- The queue left by the eviction loop is the original queue with the
maximal stale front segment dropped. -/
theorem evictGo_queue (cutoff : Nat) (q : List (Nat × List Nat × List Nat)) :
    ∀ seen, (evictGo cutoff q seen).1 = q.dropWhile (fun e => decide (e.1 < cutoff)) := by
  induction q with
  | nil => intro seen; rfl
  | cons e rest ih =>
    intro seen
    obtain ⟨t, p, n⟩ := e
    by_cases ht : t ≥ cutoff
    · simp [evictGo, ht, List.dropWhile, Nat.not_lt.mpr ht]
    · have hlt : t < cutoff := Nat.lt_of_not_le ht
      simp [evictGo, ht, List.dropWhile, hlt, ih]

/-- The eviction loop preserves the key-uniqueness invariants. -/
theorem evictGo_nodup (cutoff : Nat) (q : List (Nat × List Nat × List Nat)) :
    ∀ seen, NodupKeys seen → (∀ pm ∈ seen, NodupKeys pm.2) →
      NodupKeys (evictGo cutoff q seen).2 ∧
        ∀ pm ∈ (evictGo cutoff q seen).2, NodupKeys pm.2 := by
  induction q with
  | nil => exact fun seen h1 h2 => ⟨h1, h2⟩
  | cons e rest ih =>
    intro seen h1 h2
    obtain ⟨t, p, n⟩ := e
    by_cases ht : t ≥ cutoff
    · refine ⟨?_, ?_⟩
      · simpa [evictGo, ht] using h1
      · intro pm hpm
        simp only [evictGo, if_pos ht] at hpm
        exact h2 pm hpm
    · simp only [evictGo, if_neg ht]
      obtain ⟨h1', h2'⟩ := evictSeenStep_nodup h1 h2
      exact ih _ h1' h2'

/-- An absent pair stays absent through the whole eviction loop. -/
theorem evictGo_none (cutoff : Nat) (q : List (Nat × List Nat × List Nat)) :
    ∀ seen (p n : List Nat), NodupKeys seen → (∀ pm ∈ seen, NodupKeys pm.2) →
      lookupSeen seen p n = none → lookupSeen (evictGo cutoff q seen).2 p n = none := by
  induction q with
  | nil => exact fun seen p n _ _ h => h
  | cons e rest ih =>
    intro seen p n h1 h2 h
    obtain ⟨t, p', n'⟩ := e
    by_cases ht : t ≥ cutoff
    · simpa [evictGo, ht] using h
    · simp only [evictGo, if_neg ht]
      obtain ⟨h1', h2'⟩ := evictSeenStep_nodup h1 h2
      exact ih _ p n h1' h2' (lookupSeen_evictSeenStep_none h1 h)

/-- Every entry in the dropped front segment is removed from the seen map by
the eviction loop. -/
theorem evictGo_evicted_absent (cutoff : Nat) (q : List (Nat × List Nat × List Nat)) :
    ∀ seen, NodupKeys seen → (∀ pm ∈ seen, NodupKeys pm.2) →
      ∀ e ∈ q.takeWhile (fun e => decide (e.1 < cutoff)),
        lookupSeen (evictGo cutoff q seen).2 e.2.1 e.2.2 = none := by
  induction q with
  | nil => intro seen _ _ e he; simp [List.takeWhile] at he
  | cons e0 rest ih =>
    intro seen h1 h2 e he
    obtain ⟨t, p, n⟩ := e0
    by_cases ht : t ≥ cutoff
    · have hpe : ¬ ((fun e => decide (e.1 < cutoff)) ((t, p, n) : Nat × List Nat × List Nat)
          = true) := by
        simp [Nat.not_lt.mpr ht]
      rw [List.takeWhile_cons, if_neg hpe] at he
      simp at he
    · have hlt : t < cutoff := Nat.lt_of_not_le ht
      have hpe : (fun e => decide (e.1 < cutoff)) ((t, p, n) : Nat × List Nat × List Nat)
          = true := by
        simp [hlt]
      rw [List.takeWhile_cons, if_pos hpe, List.mem_cons] at he
      obtain ⟨h1', h2'⟩ := evictSeenStep_nodup (p := p) (n := n) h1 h2
      simp only [evictGo, if_neg ht]
      rcases he with he | he
      · rw [he]
        exact evictGo_none cutoff rest _ p n h1' h2'
          (lookupSeen_evictSeenStep_self h1 h2)
      · exact ih _ h1' h2' e he

/-- A pair whose recorded timestamp is at or past the cutoff survives the
eviction loop, provided no stale queue entry names the same pair. -/
theorem evictGo_survives (cutoff : Nat) (q : List (Nat × List Nat × List Nat)) :
    ∀ seen (p n : List Nat) (t : Nat), NodupKeys seen → (∀ pm ∈ seen, NodupKeys pm.2) →
      (∀ e ∈ q, e.1 < cutoff → e.2 ≠ (p, n)) →
      lookupSeen seen p n = some t →
      lookupSeen (evictGo cutoff q seen).2 p n = some t := by
  induction q with
  | nil => exact fun seen p n t _ _ _ h => h
  | cons e0 rest ih =>
    intro seen p n t h1 h2 hq h
    obtain ⟨t0, p0, n0⟩ := e0
    by_cases ht : t0 ≥ cutoff
    · simpa [evictGo, ht] using h
    · have hlt : t0 < cutoff := Nat.lt_of_not_le ht
      have hne : (p0, n0) ≠ (p, n) :=
        hq (t0, p0, n0) (List.mem_cons_self _ _) hlt
      simp only [evictGo, if_neg ht]
      obtain ⟨h1', h2'⟩ := evictSeenStep_nodup (p := p0) (n := n0) h1 h2
      exact ih _ p n t h1' h2'
        (fun e he hl => hq e (List.mem_cons_of_mem _ he) hl)
        (by
          rw [lookupSeen_evictSeenStep_ne h1 (fun he => hne he.symm)]
          exact h)

/-- The eviction loop keeps the queue-entry bookkeeping invariants. -/
theorem evictGo_queue_inv (cutoff : Nat) (q : List (Nat × List Nat × List Nat)) :
    ∀ seen, NodupKeys seen → (∀ pm ∈ seen, NodupKeys pm.2) →
      (∀ e ∈ q, lookupSeen seen e.2.1 e.2.2 = some e.1) →
      q.Pairwise (fun a b => a.2 ≠ b.2) →
      (∀ e ∈ (evictGo cutoff q seen).1,
        lookupSeen (evictGo cutoff q seen).2 e.2.1 e.2.2 = some e.1) ∧
      (evictGo cutoff q seen).1.Pairwise (fun a b => a.2 ≠ b.2) := by
  induction q with
  | nil => exact fun seen _ _ _ _ => ⟨by simp [evictGo], by simp [evictGo]⟩
  | cons e0 rest ih =>
    intro seen h1 h2 hq hpw
    obtain ⟨t, p, n⟩ := e0
    rw [List.pairwise_cons] at hpw
    by_cases ht : t ≥ cutoff
    · constructor
      · intro e he
        simp only [evictGo, if_pos ht] at he ⊢
        exact hq e he
      · simp only [evictGo, if_pos ht]
        rw [List.pairwise_cons]
        exact hpw
    · simp only [evictGo, if_neg ht]
      obtain ⟨h1', h2'⟩ := evictSeenStep_nodup (p := p) (n := n) h1 h2
      refine ih _ h1' h2' ?_ hpw.2
      intro e he
      rw [lookupSeen_evictSeenStep_ne h1 (fun hee => hpw.1 e he hee.symm)]
      exact hq e (List.mem_cons_of_mem _ he)

/-- The `ReplayCache::evict` preserves well-formedness. -/
theorem WF_evict {c : ReplayCache} (now : Nat) (h : c.WF) : (c.evict now).WF := by
  obtain ⟨h1, h2, h3, h4⟩ := h
  obtain ⟨g1, g2⟩ := evictGo_nodup (now - c.window_ms) c.queue c.seen h1 h2
  obtain ⟨g3, g4⟩ := evictGo_queue_inv (now - c.window_ms) c.queue c.seen h1 h2 h3 h4
  exact ⟨g1, g2, g3, g4⟩

/-- After eviction, the queue holds exactly the entries at or past the
cutoff whenever the recorded timestamps are in queue order; in general it is
the `dropWhile` of the stale front. -/
theorem evict_queue_eq (c : ReplayCache) (now : Nat) :
    (c.evict now).queue =
      c.queue.dropWhile (fun e => decide (e.1 < now - c.window_ms)) :=
  evictGo_queue _ c.queue c.seen

/-- A successful recording makes the pair present with its `ts`. -/
theorem lookupSeen_record_self (seen : List (List Nat × List (List Nat × Nat)))
    (p n : List Nat) (ts : Nat) :
    lookupSeen (insertA seen p (insertA ((lookupA seen p).getD []) n ts)) p n = some ts := by
  unfold lookupSeen
  simp [lookupA_insertA_self]

/-- A successful recording leaves every other pair unchanged. -/
theorem lookupSeen_record_ne (seen : List (List Nat × List (List Nat × Nat)))
    (p n : List Nat) (ts : Nat) {p' n' : List Nat} (h : (p', n') ≠ (p, n)) :
    lookupSeen (insertA seen p (insertA ((lookupA seen p).getD []) n ts)) p' n' =
      lookupSeen seen p' n' := by
  unfold lookupSeen
  by_cases hp : p' = p
  · subst hp
    have hn : n' ≠ n := fun he => h (by rw [he])
    simp only [lookupA_insertA_self]
    rw [lookupA_insertA_ne _ _ hn]
    cases hm : lookupA seen p' with
    | none => simp [lookupA]
    | some m => simp
  · rw [lookupA_insertA_ne _ _ hp]

/-- The `check_and_record` preserves well-formedness. -/
theorem WF_check_and_record {c : ReplayCache} {now ts : Nat} {p n : List Nat} (h : c.WF) :
    (c.check_and_record now ts p n).2.WF := by
  unfold ReplayCache.check_and_record
  by_cases hdt : (if now ≥ ts then now - ts else ts - now) > c.window_ms
  · simpa [hdt] using h
  · simp only [if_neg hdt]
    have hwe : (c.evict now).WF := WF_evict now h
    obtain ⟨h1, h2, h3, h4⟩ := hwe
    by_cases hr : (lookupA ((lookupA (c.evict now).seen p).getD []) n).isSome
    · simpa [hr] using ⟨h1, h2, h3, h4⟩
    · simp only [hr, if_false, Bool.false_eq_true]
      have habs : lookupSeen (c.evict now).seen p n = none := by
        unfold lookupSeen
        cases hm : lookupA (c.evict now).seen p with
        | none => rfl
        | some m =>
          simp only [hm, Option.getD_some] at hr
          exact Option.not_isSome_iff_eq_none.mp hr
      have hqk : ∀ e ∈ (c.evict now).queue, e.2 ≠ (p, n) := by
        intro e he hee
        have hv := h3 e he
        rw [hee] at hv
        have hv2 : lookupSeen (c.evict now).seen p n = some e.1 := hv
        rw [hv2] at habs
        exact Option.some_ne_none _ habs
      have hentry : ((lookupA (c.evict now).seen p).getD []) =
          (lookupA (c.evict now).seen p).getD [] := rfl
      refine ⟨NodupKeys_insertA p _ h1, ?_, ?_, ?_⟩
      · intro pm hpm
        rcases mem_insertA hpm with hh | hh
        · exact h2 pm hh
        · rw [hh]
          refine NodupKeys_insertA n ts ?_
          cases hm : lookupA (c.evict now).seen p with
          | none => simp [hm, NodupKeys]
          | some m => simpa [hm] using h2 (p, m) (mem_of_lookupA hm)
      · intro e he
        simp only [List.mem_append, List.mem_singleton] at he
        rcases he with he | he
        · have hv : lookupSeen (c.evict now).seen e.2.1 e.2.2 = some e.1 := h3 e he
          have hke : (e.2.1, e.2.2) ≠ (p, n) := by
            intro hee
            exact hqk e he (by rw [← hee])
          show lookupSeen (insertA (c.evict now).seen p
            (insertA ((lookupA (c.evict now).seen p).getD []) n ts)) e.2.1 e.2.2 = some e.1
          rw [lookupSeen_record_ne _ _ _ _ hke]
          exact hv
        · rw [he]
          show lookupSeen (insertA (c.evict now).seen p
            (insertA ((lookupA (c.evict now).seen p).getD []) n ts)) p n = some ts
          exact lookupSeen_record_self _ _ _ _
      · rw [List.pairwise_append]
        refine ⟨h4, List.pairwise_singleton _ _, ?_⟩
        intro e he e' he'
        rw [List.mem_singleton] at he'
        rw [he']
        exact hqk e he

/-- A recorded pair whose first-seen timestamp is at or past the eviction
cutoff survives `evict` in a well-formed cache. -/
theorem lookupNonce_evict_survives {c : ReplayCache} {p n : List Nat} {t now : Nat}
    (hwf : c.WF) (h : lookupNonce c p n = some t) (hcut : now - c.window_ms ≤ t) :
    lookupNonce (c.evict now) p n = some t := by
  obtain ⟨h1, h2, h3, h4⟩ := hwf
  refine evictGo_survives _ _ _ p n t h1 h2 ?_ h
  intro e he hl hee
  have hv := h3 e he
  rw [hee] at hv
  have hv2 : lookupNonce c p n = some e.1 := hv
  rw [h] at hv2
  have : t = e.1 := Option.some_inj.mp hv2
  omega

/-- Claim C2 counterexample: with window 100, record nonce `n1` at
`ts = now = 100`, then nonce `n2` at `now = 110` with (in-window) `ts = 15`.
At `now = 116` the entry for `n2` (first seen at 15) is outside the last
`window_ms` milliseconds (cutoff 16), so by the claim a fresh call for `n2`
should succeed; the code returns `Replay` because eviction stops at the
queue front entry `(ts 100, n1)`. -/
theorem check_and_record_window_iff_counterexample :
    ((ReplayCache.new 100).check_and_record 100 100 [112] [1]).1 = .ok () ∧
    ((((ReplayCache.new 100).check_and_record 100 100 [112] [1]).2).check_and_record
        110 15 [112] [2]).1 = .ok () ∧
    lookupNonce ((((ReplayCache.new 100).check_and_record 100 100 [112] [1]).2).check_and_record
        110 15 [112] [2]).2 [112] [2] = some 15 ∧
    (15 : Nat) < 116 - 100 ∧
    (if (116 : Nat) ≥ 116 then 116 - 116 else 116 - 116) ≤ 100 ∧
    (((((ReplayCache.new 100).check_and_record 100 100 [112] [1]).2).check_and_record
        110 15 [112] [2]).2.check_and_record 116 116 [112] [2]).1 = .error .replay := by
  decide

/-- Claim C2 (amended): `check_and_record` returns `OutsideWindow` and records
nothing when `|now_ms − ts_ms| > window_ms`; otherwise it first evicts from
the queue front the maximal run of entries with first-seen ts strictly below
`now_ms − window_ms` (each of these is removed from the per-principal map),
and then returns success iff `(principal, nonce)` is not present in the cache
after that eviction — an entry may outlive its window when a younger entry at
the queue front blocks eviction — recording `(principal, nonce)` with
first-seen `ts_ms` on success and returning `Replay` (keeping only the
eviction) otherwise. -/
theorem check_and_record_spec (c : ReplayCache) (now ts : Nat) (p n : List Nat) :
    ((if now ≥ ts then now - ts else ts - now) > c.window_ms →
      c.check_and_record now ts p n = (.error .outsideWindow, c)) ∧
    ((if now ≥ ts then now - ts else ts - now) ≤ c.window_ms →
      ((c.evict now).queue =
        c.queue.dropWhile (fun e => decide (e.1 < now - c.window_ms))) ∧
      (c.WF → ∀ e ∈ c.queue.takeWhile (fun e => decide (e.1 < now - c.window_ms)),
        lookupNonce (c.evict now) e.2.1 e.2.2 = none) ∧
      ((c.check_and_record now ts p n).1 = .ok () ↔
        lookupNonce (c.evict now) p n = none) ∧
      (lookupNonce (c.evict now) p n = none →
        c.check_and_record now ts p n = (.ok (),
          { c.evict now with
            seen := insertA (c.evict now).seen p
              (insertA ((lookupA (c.evict now).seen p).getD []) n ts),
            queue := (c.evict now).queue ++ [(ts, p, n)] }) ∧
        lookupNonce (c.check_and_record now ts p n).2 p n = some ts) ∧
      (∀ t, lookupNonce (c.evict now) p n = some t →
        c.check_and_record now ts p n = (.error .replay, c.evict now))) := by
  constructor
  · intro hdt
    unfold ReplayCache.check_and_record
    rw [if_pos hdt]
  · intro hdt
    have hnd : ¬ ((if now ≥ ts then now - ts else ts - now) > c.window_ms) :=
      Nat.not_lt.mpr hdt
    have hln : lookupNonce (c.evict now) p n =
        lookupA ((lookupA (c.evict now).seen p).getD []) n := by
      unfold lookupNonce lookupSeen
      cases hm : lookupA (c.evict now).seen p with
      | none => simp [lookupA]
      | some m => simp
    refine ⟨evict_queue_eq c now, ?_, ?_, ?_, ?_⟩
    · intro hwf e he
      exact evictGo_evicted_absent _ _ _ hwf.1 hwf.2.1 e he
    · cases hcase : lookupA ((lookupA (c.evict now).seen p).getD []) n with
      | none =>
        have hres : c.check_and_record now ts p n = (.ok (),
            { c.evict now with
              seen := insertA (c.evict now).seen p
                (insertA ((lookupA (c.evict now).seen p).getD []) n ts),
              queue := (c.evict now).queue ++ [(ts, p, n)] }) := by
          unfold ReplayCache.check_and_record
          rw [if_neg hnd]
          simp [hcase]
        rw [hres, hln, hcase]
        simp
      | some t0 =>
        have hres : c.check_and_record now ts p n = (.error .replay, c.evict now) := by
          unfold ReplayCache.check_and_record
          rw [if_neg hnd]
          simp [hcase]
        rw [hres, hln, hcase]
        simp
    · intro habs
      rw [hln] at habs
      have hres : c.check_and_record now ts p n = (.ok (),
          { c.evict now with
            seen := insertA (c.evict now).seen p
              (insertA ((lookupA (c.evict now).seen p).getD []) n ts),
            queue := (c.evict now).queue ++ [(ts, p, n)] }) := by
        unfold ReplayCache.check_and_record
        rw [if_neg hnd]
        simp [habs]
      refine ⟨hres, ?_⟩
      rw [hres]
      exact lookupSeen_record_self _ _ _ _
    · intro t hsome
      rw [hln] at hsome
      unfold ReplayCache.check_and_record
      rw [if_neg hnd]
      simp [hsome]

/-- Closed instance of `check_and_record_spec` on a fresh window-100 cache at
`now = 50`, `ts = 30` (inside the window). -/
theorem check_and_record_spec_witness :
    ((ReplayCache.new 100).evict 50).queue = [] ∧
    (((ReplayCache.new 100).check_and_record 50 30 [1] [2]).1 = .ok () ↔
      lookupNonce ((ReplayCache.new 100).evict 50) [1] [2] = none) := by
  have h := (check_and_record_spec (ReplayCache.new 100) 50 30 [1] [2]).2 (by decide)
  exact ⟨by simpa using h.1, h.2.2.1⟩

/-! ## Catalog (bunker)

server.rs and the integration tests consume a repeater-based catalog with
`repeaters` and `actions` tables; the bunker.rs present in this source tree
is the orthogonal local-target variant (`targets`/`secrets`), so the
repeater-based catalog is reconstructed from the spec below. -/

/-- Modelled from the spec: the repeater-based catalog (`Bunker`) consumed by
server.rs — `operators` (non-empty set of recipients), `agents` and
`repeaters` (principal → 32-byte verifying key), `actions` (action name →
owning repeater principal) and `permissions` (agent principal → set of
action names).  Principals and names are UTF-8 byte strings; maps are
key-unique association lists. -/
structure Bunker where
  operators : List (List Nat)
  agents : List (List Nat × List Nat)
  repeaters : List (List Nat × List Nat)
  actions : List (List Nat × List Nat)
  permissions : List (List Nat × List (List Nat))
deriving DecidableEq, Repr

/-- Modelled from the spec: the parsed plaintext form of the catalog before
the version check and validation (the `TomlBunker` analogue). -/
structure RawBunker where
  version : Nat
  operators : List (List Nat)
  agents : List (List Nat × List Nat)
  repeaters : List (List Nat × List Nat)
  actions : List (List Nat × List Nat)
  permissions : List (List Nat × List (List Nat))
deriving DecidableEq, Repr

/-- Modelled from the spec: `Bunker::validate` for the repeater-based
catalog, checking invariants 1–4 in order with an early error return. -/
def Bunker.validate (b : Bunker) : Except String Unit :=
  if b.operators.isEmpty then .error "no operators"
  else if ¬ (b.actions.all fun av => (lookupA b.repeaters av.2).isSome) then
    .error "action references unknown repeater"
  else if ¬ (b.permissions.all fun pv => (lookupA b.agents pv.1).isSome) then
    .error "permission references unknown agent"
  else if ¬ (b.permissions.all fun pv => pv.2.all fun a => (lookupA b.actions a).isSome) then
    .error "permission references unknown action"
  else .ok ()

/-- The single supported catalog version. -/
def SUPPORTED_BUNKER_VERSION : Nat := 1

/-- The catalog fields of a parsed plaintext. -/
def Bunker.ofRaw (t : RawBunker) : Bunker :=
  { operators := t.operators, agents := t.agents, repeaters := t.repeaters,
    actions := t.actions, permissions := t.permissions }

/-- Modelled from the spec: `Bunker::decode` after the text parse — check the
version, then validate the invariants (the `TryFrom<TomlBunker>` analogue). -/
def Bunker.decode (t : RawBunker) : Except String Bunker :=
  if t.version ≠ SUPPORTED_BUNKER_VERSION then .error "unsupported bunker version"
  else
    match (Bunker.ofRaw t).validate with
    | .ok () => .ok (Bunker.ofRaw t)
    | .error e => .error e

/-- Declarative form of catalog invariants 1–4 (invariant 5, the version, is
checked by `Bunker.decode`): operators non-empty, every action's owner is a
repeater, every permission key is an agent, every permitted action exists. -/
def BunkerInvariants (b : Bunker) : Prop :=
  b.operators ≠ [] ∧
  (∀ av ∈ b.actions, (lookupA b.repeaters av.2).isSome = true) ∧
  (∀ pv ∈ b.permissions, (lookupA b.agents pv.1).isSome = true) ∧
  (∀ pv ∈ b.permissions, ∀ a ∈ pv.2, (lookupA b.actions a).isSome = true)

/-- Modelled from the spec: the administrative mutations of §4.5. -/
inductive Mutation where
  | addOperator (op : List Nat)
  | removeOperator (op : List Nat)
  | addAgent (p k : List Nat)
  | removeAgent (p : List Nat)
  | addRepeater (p k : List Nat)
  | removeRepeater (p : List Nat)
  | registerAction (a owner : List Nat)
  | unregisterAction (a : List Nat)
  | grantPermission (p a : List Nat)
  | revokePermission (p a : List Nat)
deriving DecidableEq, Repr

/-- Modelled from the spec: the raw state update of one administrative
mutation, refusing to remove an absent operator or to leave `operators`
empty. -/
def mutate (b : Bunker) (m : Mutation) : Except String Bunker :=
  match m with
  | .addOperator op =>
    .ok { b with operators :=
      if b.operators.contains op then b.operators else b.operators ++ [op] }
  | .removeOperator op =>
    if ¬ b.operators.contains op then .error "operator not present"
    else
      if (b.operators.filter (fun o => decide (o ≠ op))).isEmpty then
        .error "cannot remove final operator"
      else .ok { b with operators := b.operators.filter (fun o => decide (o ≠ op)) }
  | .addAgent p k => .ok { b with agents := insertA b.agents p k }
  | .removeAgent p =>
    .ok { b with agents := removeA b.agents p, permissions := removeA b.permissions p }
  | .addRepeater p k => .ok { b with repeaters := insertA b.repeaters p k }
  | .removeRepeater p => .ok { b with repeaters := removeA b.repeaters p }
  | .registerAction a owner => .ok { b with actions := insertA b.actions a owner }
  | .unregisterAction a => .ok { b with actions := removeA b.actions a }
  | .grantPermission p a =>
    let cur := (lookupA b.permissions p).getD []
    let cur' := if cur.contains a then cur else cur ++ [a]
    .ok { b with permissions := insertA b.permissions p cur' }
  | .revokePermission p a =>
    let cur := (lookupA b.permissions p).getD []
    .ok { b with permissions := insertA b.permissions p (cur.filter (fun x => decide (x ≠ a))) }

/-- Modelled from the spec: an administrative mutation applies the raw update
and re-validates the invariants before the catalog is re-sealed. -/
def applyMutation (b : Bunker) (m : Mutation) : Except String Bunker :=
  match mutate b m with
  | .error e => .error e
  | .ok b' =>
    match b'.validate with
    | .ok () => .ok b'
    | .error e => .error e

/-- Claim C3: the operational validation accepts a catalog exactly when the
declarative invariants 1–4 hold; decoding a parsed plaintext succeeds only
when the version is the single supported one and the invariants hold of the
resulting catalog; and every administrative mutation re-validates, so a
mutation that returns a catalog returns one satisfying the invariants. -/
theorem bunker_decode_and_mutations_validate :
    (∀ b : Bunker, b.validate = .ok () ↔ BunkerInvariants b) ∧
    (∀ t : RawBunker, ∀ b : Bunker, Bunker.decode t = .ok b →
      t.version = SUPPORTED_BUNKER_VERSION ∧ b = Bunker.ofRaw t ∧ BunkerInvariants b) ∧
    (∀ (b : Bunker) (m : Mutation) (b' : Bunker), applyMutation b m = .ok b' →
      BunkerInvariants b') := by
  have hval : ∀ b : Bunker, b.validate = .ok () ↔ BunkerInvariants b := by
    intro b
    constructor
    · intro h
      unfold Bunker.validate at h
      split_ifs at h with h1 h2 h3 h4
      refine ⟨?_, List.all_eq_true.mp h2, List.all_eq_true.mp h3, ?_⟩
      · intro he
        rw [List.isEmpty_iff] at h1
        exact h1 he
      · have h4' := List.all_eq_true.mp h4
        intro pv hpv a ha
        exact List.all_eq_true.mp (h4' pv hpv) a ha
    · intro hinv
      obtain ⟨i1, i2, i3, i4⟩ := hinv
      unfold Bunker.validate
      rw [if_neg (by rw [List.isEmpty_iff]; exact i1)]
      rw [if_neg (not_not_intro (List.all_eq_true.mpr i2))]
      rw [if_neg (not_not_intro (List.all_eq_true.mpr i3))]
      rw [if_neg (not_not_intro (List.all_eq_true.mpr
        (fun pv hpv => List.all_eq_true.mpr (i4 pv hpv))))]
  refine ⟨hval, ?_, ?_⟩
  · intro t b h
    unfold Bunker.decode at h
    by_cases hv : t.version ≠ SUPPORTED_BUNKER_VERSION
    · rw [if_pos hv] at h
      exact absurd h (by simp)
    · rw [if_neg hv] at h
      push_neg at hv
      cases hvd : (Bunker.ofRaw t).validate with
      | ok u =>
        cases u
        rw [hvd] at h
        have hb : b = Bunker.ofRaw t := by
          injection h with h2
          exact h2.symm
        exact ⟨hv, hb, hb ▸ (hval _).mp hvd⟩
      | error e =>
        rw [hvd] at h
        exact absurd h (by simp)
  · intro b m b' h
    unfold applyMutation at h
    cases hm : mutate b m with
    | error e =>
      rw [hm] at h
      exact absurd h (by simp)
    | ok b0 =>
      rw [hm] at h
      cases hvd : b0.validate with
      | ok u =>
        cases u
        simp only [hvd] at h
        have hb : b' = b0 := by
          injection h with h2
          exact h2.symm
        exact hb ▸ (hval _).mp hvd
      | error e =>
        simp only [hvd] at h
        exact absurd h (by simp)

/-- Sample catalog for the bunker witness: one operator, agent `a`, repeater
`r`, action `e` owned by `r`, and permission `a → {e}`. -/
def sampleBunker : Bunker :=
  { operators := [[111]], agents := [([97], [1])], repeaters := [([114], [2])],
    actions := [([101], [114])], permissions := [([97], [[101]])] }

/-- Parsed plaintext of `sampleBunker` at the supported version. -/
def sampleRawBunker : RawBunker :=
  { version := 1, operators := [[111]], agents := [([97], [1])],
    repeaters := [([114], [2])], actions := [([101], [114])],
    permissions := [([97], [[101]])] }

/-- The `sampleBunker` after removing agent `a` (and its permissions). -/
def sampleBunkerNoAgent : Bunker :=
  { operators := [[111]], agents := [], repeaters := [([114], [2])],
    actions := [([101], [114])], permissions := [] }

/-- Closed instance of `bunker_decode_and_mutations_validate`: the sample
catalog validates, decodes from its raw form, and removing its agent
re-validates. -/
theorem bunker_decode_and_mutations_validate_witness :
    BunkerInvariants sampleBunker ∧
    (sampleRawBunker.version = SUPPORTED_BUNKER_VERSION ∧
      sampleBunker = Bunker.ofRaw sampleRawBunker ∧ BunkerInvariants sampleBunker) ∧
    BunkerInvariants sampleBunkerNoAgent :=
  ⟨(bunker_decode_and_mutations_validate.1 sampleBunker).mp (by decide),
   bunker_decode_and_mutations_validate.2.1 sampleRawBunker sampleBunker (by decide),
   bunker_decode_and_mutations_validate.2.2 sampleBunker (.removeAgent [97])
     sampleBunkerNoAgent (by decide)⟩

/-! ## Broker dispatcher (server.rs)

The per-frame handling of `peer_read_loop` is modelled as a pure step
function over the shared state.  Stream write halves are connection ids;
each `write_frame` to a peer becomes an output event.  Ed25519 key parsing
and strict signature verification are abstracted as parameters. -/

/-- Whether a byte is a UTF-8 continuation byte (`0x80`–`0xBF`). -/
def isCont (b : Nat) : Bool := decide (0x80 ≤ b ∧ b ≤ 0xBF)

/-- Validity per `std::str::from_utf8` (RFC 3629: no overlongs, no
surrogates, max `U+10FFFF`). -/
def isValidUtf8 : List Nat → Bool
  | [] => true
  | b :: rest =>
    if b ≤ 0x7F then isValidUtf8 rest
    else if 0xC2 ≤ b ∧ b ≤ 0xDF then
      match rest with
      | c1 :: r => isCont c1 && isValidUtf8 r
      | [] => false
    else if b = 0xE0 then
      match rest with
      | c1 :: c2 :: r => decide (0xA0 ≤ c1 ∧ c1 ≤ 0xBF) && isCont c2 && isValidUtf8 r
      | _ => false
    else if (0xE1 ≤ b ∧ b ≤ 0xEC) ∨ b = 0xEE ∨ b = 0xEF then
      match rest with
      | c1 :: c2 :: r => isCont c1 && isCont c2 && isValidUtf8 r
      | _ => false
    else if b = 0xED then
      match rest with
      | c1 :: c2 :: r => decide (0x80 ≤ c1 ∧ c1 ≤ 0x9F) && isCont c2 && isValidUtf8 r
      | _ => false
    else if b = 0xF0 then
      match rest with
      | c1 :: c2 :: c3 :: r =>
        decide (0x90 ≤ c1 ∧ c1 ≤ 0xBF) && isCont c2 && isCont c3 && isValidUtf8 r
      | _ => false
    else if 0xF1 ≤ b ∧ b ≤ 0xF3 then
      match rest with
      | c1 :: c2 :: c3 :: r => isCont c1 && isCont c2 && isCont c3 && isValidUtf8 r
      | _ => false
    else if b = 0xF4 then
      match rest with
      | c1 :: c2 :: c3 :: r =>
        decide (0x80 ≤ c1 ∧ c1 ≤ 0x8F) && isCont c2 && isCont c3 && isValidUtf8 r
      | _ => false
    else false

/-- The two listener kinds (`PeerKind`). -/
inductive PeerKind where
  | agent | repeater
deriving DecidableEq, Repr

/-- A live repeater session (`RepeaterSession`): the connection id of its
write half and its registered action set. -/
structure Session where
  conn : Nat
  registered_actions : List (List Nat)
deriving DecidableEq, Repr

/-- The broker's shared state (`SharedState`): catalog snapshot, replay
cache, repeater session table, and pending request table (request id →
agent connection id). -/
structure ServerState where
  bunker : Bunker
  replay : ReplayCache
  repeaters : List (List Nat × Session)
  pending : List (List Nat × Nat)
deriving DecidableEq, Repr

/-- An observable output of one step: a frame written (via `write_frame`) to
a connection's write half. -/
inductive OutEvent where
  | send (conn : Nat) (frame : List Nat)
deriving DecidableEq, Repr

/-- How a step leaves the read loop: keep reading, or return an error (which
closes the connection). -/
inductive StepResult where
  | cont | closeErr
deriving DecidableEq, Repr

/-- Result of handling one frame: loop outcome, updated shared state, frames
written, and the repeater id a successful `Register` bound to the
connection. -/
abbrev HandlerOut := StepResult × ServerState × List OutEvent × Option (List Nat)

/-- The `lookup_vk`: UTF-8-decode the principal, look it up in `agents` and only
on a missing key fall back to `repeaters`; 32-byte key parsing is abstracted
by `parseVk`. -/
def lookupVk {VK : Type} (parseVk : List Nat → Option VK) (b : Bunker)
    (principal : List Nat) : Option VK :=
  if isValidUtf8 principal then
    match lookupA b.agents principal with
    | some pk => parseVk pk
    | none =>
      match lookupA b.repeaters principal with
      | some pk => parseVk pk
      | none => none
  else none

/-- The `send_error`: build and encode the unsigned error envelope — principal
`turret`, fresh `ts_ms`, 16 zero bytes of nonce, 64-byte zero signature. -/
def sendErrorFrame (now : Nat) (request_id : List Nat) (code : ErrorCode)
    (message : List Nat) : Except ProtocolError (List Nat) := do
  let body ← ErrorBody.encode { request_id, code, message }
  let env : Envelope :=
    { msg_type := .error, principal := strBytes "turret", ts_ms := now,
      nonce := List.replicate 16 0, body := body, sig := List.replicate 64 0 }
  Envelope.encode env

/-- The `write_frame` on a connection; `none` models the `FrameTooLarge` error
propagating out of the write. -/
def writeTo (conn : Nat) (frame : List Nat) : Option OutEvent :=
  if frame.length > MAX_FRAME_SIZE then none else some (.send conn frame)

/-- The `send_error(...)?` toward a peer: an encode or write failure propagates
and closes the connection. -/
def replyError (st : ServerState) (conn now : Nat) (request_id : List Nat)
    (code : ErrorCode) (message : List Nat) : HandlerOut :=
  match sendErrorFrame now request_id code message with
  | .error _ => (.closeErr, st, [], none)
  | .ok frame =>
    match writeTo conn frame with
    | none => (.closeErr, st, [], none)
    | some ev => (.cont, st, [ev], none)

/-- The `route_reply`: remove the pending entry; if absent, drop; otherwise
forward the original frame bytes to the stored agent write handle (write
errors are ignored). -/
def routeReply (st : ServerState) (request_id payload : List Nat) :
    ServerState × List OutEvent :=
  match lookupA st.pending request_id with
  | none => (st, [])
  | some agentConn =>
    let st' := { st with pending := removeA st.pending request_id }
    match writeTo agentConn payload with
    | none => (st', [])
    | some ev => (st', [ev])

/-- The `(Repeater, Register)` dispatch arm: decode the body (failure closes
the connection), ignore mismatched or unknown repeater ids, intersect the
advertised actions with the catalog actions owned by this repeater, and
install the session (replacing any prior one). -/
def handleRegister (st : ServerState) (conn : Nat) (env : Envelope) : HandlerOut :=
  match RegisterBody.decode env.body with
  | .error _ => (.closeErr, st, [], none)
  | .ok body =>
    if env.principal ≠ body.repeater_id then (.cont, st, [], none)
    else if ¬ isValidUtf8 body.repeater_id then (.cont, st, [], none)
    else if (lookupA st.bunker.repeaters body.repeater_id).isNone then (.cont, st, [], none)
    else
      let regActions := body.actions.filter fun a =>
        isValidUtf8 a &&
          match lookupA st.bunker.actions a with
          | some owner => decide (owner = body.repeater_id)
          | none => false
      let session : Session := { conn, registered_actions := regActions }
      (.cont, { st with repeaters := insertA st.repeaters body.repeater_id session }, [],
        some body.repeater_id)

/-- The `(Agent, Invoke)` dispatch arm: decode the body (failure closes the
connection), check principal and action UTF-8, the permission matrix, the
catalog action owner, the live session and its action set (each failure
sends the corresponding error), then record the pending request and forward
the original signed frame bytes unchanged to the repeater. -/
def handleInvoke (st : ServerState) (conn now : Nat) (env : Envelope)
    (payload : List Nat) : HandlerOut :=
  match InvokeBody.decode env.body with
  | .error _ => (.closeErr, st, [], none)
  | .ok body =>
    if ¬ isValidUtf8 env.principal then
      replyError st conn now body.request_id .unauthenticated (strBytes "bad principal")
    else if ¬ isValidUtf8 body.action then
      replyError st conn now body.request_id .badRequest (strBytes "bad action")
    else if ¬ ((lookupA st.bunker.permissions env.principal).getD []).contains body.action then
      replyError st conn now body.request_id .denied (strBytes "denied")
    else
      match lookupA st.bunker.actions body.action with
      | none =>
        replyError st conn now body.request_id .unknownAction (strBytes "unknown action")
      | some repeater_id =>
        match lookupA st.repeaters repeater_id with
        | none => replyError st conn now body.request_id .noRepeater (strBytes "no repeater")
        | some session =>
          if ¬ session.registered_actions.contains body.action then
            replyError st conn now body.request_id .noRepeater
              (strBytes "repeater not registered for action")
          else
            let st' := { st with pending := insertA st.pending body.request_id conn }
            match writeTo session.conn payload with
            | none => (.closeErr, st', [], none)
            | some ev => (.cont, st', [ev], none)

/-- One iteration of `peer_read_loop` after a frame's payload has been read:
decode the envelope (failure closes), look up the principal's verifying key
(unknown principal closes), consult and update the shared replay cache (a
rejected frame at most triggers a best-effort `Error(Replay)` to an agent
`Invoke` and is dropped), verify the signature over the canonical bytes
(failure closes), then dispatch on `(peer kind, message type)`. -/
def handleFrame {VK : Type} (parseVk : List Nat → Option VK)
    (verifyOk : VK → List Nat → Nat → List Nat → List Nat → List Nat → Bool)
    (st : ServerState) (kind : PeerKind) (conn : Nat) (now : Nat)
    (payload : List Nat) : HandlerOut :=
  match Envelope.decode payload with
  | .error _ => (.closeErr, st, [], none)
  | .ok env =>
    match lookupVk parseVk st.bunker env.principal with
    | none => (.closeErr, st, [], none)
    | some vk =>
      let cr := st.replay.check_and_record now env.ts_ms env.principal env.nonce
      let st1 := { st with replay := cr.2 }
      match cr.1 with
      | .error _ =>
        if kind = .agent then
          match (if env.msg_type = .invoke then (InvokeBody.decode env.body).toOption
            else none) with
          | some b => replyError st1 conn now b.request_id .replay (strBytes "replay")
          | none => (.cont, st1, [], none)
        else (.cont, st1, [], none)
      | .ok () =>
        if verifyOk vk env.principal env.ts_ms env.nonce env.body env.sig then
          match kind, env.msg_type with
          | .repeater, .register => handleRegister st1 conn env
          | .agent, .invoke => handleInvoke st1 conn now env payload
          | .repeater, .result =>
            match ResultBody.decode env.body with
            | .error _ => (.closeErr, st1, [], none)
            | .ok rb =>
              let r := routeReply st1 rb.request_id payload
              (.cont, r.1, r.2, none)
          | .repeater, .error =>
            match ErrorBody.decode env.body with
            | .error _ => (.closeErr, st1, [], none)
            | .ok eb =>
              let r := routeReply st1 eb.request_id payload
              (.cont, r.1, r.2, none)
          | _, _ => (.cont, st1, [], none)
        else (.closeErr, st1, [], none)

/-- Claim C1: whenever the broker forwards an `Invoke` to a repeater — the
frame decoded, the principal known, the replay check passed, the signature
verified, the permission present, the action known, and a live session
registered for the action — the single frame written to the repeater stream
carries exactly the payload bytes read from the agent stream; the broker
re-encodes and re-signs nothing (the state changes only by the replay
recording and the new pending entry). -/
theorem invoke_forwarding_preserves_bytes {VK : Type}
    (parseVk : List Nat → Option VK)
    (verifyOk : VK → List Nat → Nat → List Nat → List Nat → List Nat → Bool)
    (st : ServerState) (conn now : Nat) (payload : List Nat) (env : Envelope) (vk : VK)
    (b : InvokeBody) (rid : List Nat) (session : Session)
    (hdec : Envelope.decode payload = .ok env)
    (hmt : env.msg_type = .invoke)
    (hvk : lookupVk parseVk st.bunker env.principal = some vk)
    (hreplay : (st.replay.check_and_record now env.ts_ms env.principal env.nonce).1 = .ok ())
    (hsig : verifyOk vk env.principal env.ts_ms env.nonce env.body env.sig = true)
    (hbody : InvokeBody.decode env.body = .ok b)
    (hputf : isValidUtf8 env.principal = true)
    (hautf : isValidUtf8 b.action = true)
    (hperm : ((lookupA st.bunker.permissions env.principal).getD []).contains b.action = true)
    (hact : lookupA st.bunker.actions b.action = some rid)
    (hsess : lookupA st.repeaters rid = some session)
    (hreg : session.registered_actions.contains b.action = true)
    (hlen : payload.length ≤ MAX_FRAME_SIZE) :
    handleFrame parseVk verifyOk st .agent conn now payload =
      (.cont,
        { st with
          replay := (st.replay.check_and_record now env.ts_ms env.principal env.nonce).2,
          pending := insertA st.pending b.request_id conn },
        [.send session.conn payload], none) := by
  have hnotbig : ¬ payload.length > MAX_FRAME_SIZE := Nat.not_lt.mpr hlen
  simp only [handleFrame, hdec, hvk, hreplay, hsig, hmt, if_true]
  simp only [handleInvoke, hbody, hputf, hautf, hperm, hact, hsess, hreg,
    writeTo, if_neg hnotbig, not_true, if_false]

/-- Session on connection 7 registered for action `e`, for the dispatcher
witnesses. -/
def sampleSession : Session := { conn := 7, registered_actions := [[101]] }

/-- Concrete broker state for the dispatcher witnesses: `sampleBunker`, a
fresh window-120000 replay cache, the sample repeater session, and no
pending requests. -/
def sampleState : ServerState :=
  { bunker := sampleBunker, replay := ReplayCache.new 120000,
    repeaters := [([114], sampleSession)], pending := [] }

/-- Concrete `Invoke` body: request id `[42]`, action `e`, empty params. -/
def sampleInvoke : InvokeBody := { request_id := [42], action := [101], params := [] }

/-- Concrete `Invoke` envelope from agent `a` wrapping `sampleInvoke`. -/
def sampleInvokeEnvelope : Envelope :=
  { msg_type := .invoke, principal := [97], ts_ms := 5, nonce := [9],
    body := invokeBodyBytes sampleInvoke, sig := List.replicate 64 0 }

/-- Closed instance of `invoke_forwarding_preserves_bytes`: the sample
`Invoke` frame from agent connection 3 is forwarded verbatim to the session
connection 7. -/
theorem invoke_forwarding_preserves_bytes_witness :
    handleFrame (fun _ => some ()) (fun _ _ _ _ _ _ => true) sampleState .agent 3 5
        (envelopeBytes sampleInvokeEnvelope) =
      (.cont,
        { sampleState with
          replay := (sampleState.replay.check_and_record 5 sampleInvokeEnvelope.ts_ms
            sampleInvokeEnvelope.principal sampleInvokeEnvelope.nonce).2,
          pending := insertA sampleState.pending sampleInvoke.request_id 3 },
        [.send sampleSession.conn (envelopeBytes sampleInvokeEnvelope)], none) :=
  invoke_forwarding_preserves_bytes (fun _ => some ()) (fun _ _ _ _ _ _ => true)
    sampleState 3 5 (envelopeBytes sampleInvokeEnvelope) sampleInvokeEnvelope ()
    sampleInvoke [114] sampleSession
    (by decide) (by decide) (by decide) (by decide) (by decide) (by decide)
    (by decide) (by decide) (by decide) (by decide) (by decide) (by decide)
    (by decide)

/-- Concrete `Invoke` envelope from agent `a` whose body is empty, hence not
decodable as an `InvokeBody`. -/
def sampleBadBodyEnvelope : Envelope :=
  { msg_type := .invoke, principal := [97], ts_ms := 5, nonce := [9],
    body := [], sig := List.replicate 64 0 }

/-- Claim C4 counterexample: a frame from a known agent with a valid
envelope, a fresh in-window nonce and a passing signature, whose body fails
to decode as an `InvokeBody`, makes the broker close the connection with no
output at all — no `Error(BadRequest)` reply is written to the sender. -/
theorem malformed_body_reply_counterexample :
    (handleFrame (fun _ => some ()) (fun _ _ _ _ _ _ => true) sampleState .agent 3 5
      (envelopeBytes sampleBadBodyEnvelope)).1 = .closeErr ∧
    (handleFrame (fun _ => some ()) (fun _ _ _ _ _ _ => true) sampleState .agent 3 5
      (envelopeBytes sampleBadBodyEnvelope)).2.2.1 = [] ∧
    InvokeBody.decode sampleBadBodyEnvelope.body = .error .io := by
  decide

/-- Claim C4 (amended): for every frame that decodes as a valid envelope from
a known principal, passes the replay check and signature verification, but
whose body fails to decode as the variant expected for its
`(peer kind, message type)` — `RegisterBody` for a repeater `Register`,
`InvokeBody` for an agent `Invoke` — the broker closes the connection
without writing any reply (the body-decode error propagates out of the read
loop); the only state change is the already-performed replay recording. -/
theorem malformed_body_closes_connection {VK : Type}
    (parseVk : List Nat → Option VK)
    (verifyOk : VK → List Nat → Nat → List Nat → List Nat → List Nat → Bool)
    (st : ServerState) (kind : PeerKind) (conn now : Nat) (payload : List Nat)
    (env : Envelope) (vk : VK)
    (hdec : Envelope.decode payload = .ok env)
    (hvk : lookupVk parseVk st.bunker env.principal = some vk)
    (hreplay : (st.replay.check_and_record now env.ts_ms env.principal env.nonce).1 = .ok ())
    (hsig : verifyOk vk env.principal env.ts_ms env.nonce env.body env.sig = true)
    (hbad : (kind = .repeater ∧ env.msg_type = .register ∧
        ∃ e, RegisterBody.decode env.body = .error e) ∨
      (kind = .agent ∧ env.msg_type = .invoke ∧
        ∃ e, InvokeBody.decode env.body = .error e)) :
    handleFrame parseVk verifyOk st kind conn now payload =
      (.closeErr,
        { st with
          replay := (st.replay.check_and_record now env.ts_ms env.principal env.nonce).2 },
        [], none) := by
  rcases hbad with ⟨hk, hmt, e, herr⟩ | ⟨hk, hmt, e, herr⟩ <;> subst hk <;>
    simp only [handleFrame, hdec, hvk, hreplay, hsig, hmt, if_true] <;>
    simp only [handleRegister, handleInvoke, herr]

/-- Closed instance of `malformed_body_closes_connection` at the
counterexample input: the connection closes and the replay recording is the
only state change. -/
theorem malformed_body_closes_connection_witness :
    handleFrame (fun _ => some ()) (fun _ _ _ _ _ _ => true) sampleState .agent 3 5
        (envelopeBytes sampleBadBodyEnvelope) =
      (.closeErr,
        { sampleState with
          replay := (sampleState.replay.check_and_record 5 sampleBadBodyEnvelope.ts_ms
            sampleBadBodyEnvelope.principal sampleBadBodyEnvelope.nonce).2 },
        [], none) :=
  malformed_body_closes_connection (fun _ => some ()) (fun _ _ _ _ _ _ => true)
    sampleState .agent 3 5 (envelopeBytes sampleBadBodyEnvelope) sampleBadBodyEnvelope ()
    (by decide) (by decide) (by decide) (by decide)
    (Or.inr ⟨rfl, rfl, .io, by decide⟩)

theorem routeReply_spec (st : ServerState) (payload r : List Nat) :
    (lookupA st.pending r = none → routeReply st r payload = (st, [])) ∧
    (∀ ac, lookupA st.pending r = some ac →
      routeReply st r payload =
        ({ st with pending := removeA st.pending r },
          if payload.length > MAX_FRAME_SIZE then [] else [.send ac payload])) := by
  constructor
  · intro hnone
    simp [routeReply, hnone]
  · intro ac hsome
    by_cases hbig : payload.length > MAX_FRAME_SIZE
    · simp [routeReply, hsome, writeTo, hbig]
    · simp [routeReply, hsome, writeTo, hbig]

/-- Claim C8: for every `Result` or `Error` frame accepted from a repeater
(valid envelope, known principal, replay check passed, signature verified,
body decoded) carrying request id `r`, the broker removes the pending-table
entry for `r`: if no entry exists the frame is dropped with no output and no
further state change; otherwise the original frame bytes are forwarded to
the stored agent write handle and the entry is absent after delivery. -/
theorem reply_routing_pending {VK : Type}
    (parseVk : List Nat → Option VK)
    (verifyOk : VK → List Nat → Nat → List Nat → List Nat → List Nat → Bool)
    (st : ServerState) (conn now : Nat) (payload : List Nat) (env : Envelope) (vk : VK)
    (r : List Nat)
    (hdec : Envelope.decode payload = .ok env)
    (hvk : lookupVk parseVk st.bunker env.principal = some vk)
    (hreplay : (st.replay.check_and_record now env.ts_ms env.principal env.nonce).1 = .ok ())
    (hsig : verifyOk vk env.principal env.ts_ms env.nonce env.body env.sig = true)
    (hbody : (env.msg_type = .result ∧
        ∃ rb : ResultBody, ResultBody.decode env.body = .ok rb ∧ rb.request_id = r) ∨
      (env.msg_type = .error ∧
        ∃ eb : ErrorBody, ErrorBody.decode env.body = .ok eb ∧ eb.request_id = r)) :
    (lookupA st.pending r = none →
      handleFrame parseVk verifyOk st .repeater conn now payload =
        (.cont,
          { st with
            replay := (st.replay.check_and_record now env.ts_ms env.principal env.nonce).2 },
          [], none)) ∧
    (∀ ac, lookupA st.pending r = some ac →
      handleFrame parseVk verifyOk st .repeater conn now payload =
        (.cont,
          { st with
            replay := (st.replay.check_and_record now env.ts_ms env.principal env.nonce).2,
            pending := removeA st.pending r },
          if payload.length > MAX_FRAME_SIZE then [] else [.send ac payload], none) ∧
      (NodupKeys st.pending → lookupA (removeA st.pending r) r = none)) := by
  rcases hbody with ⟨hmt, rb, hrb, hrid⟩ | ⟨hmt, rb, hrb, hrid⟩ <;> subst hrid <;>
    simp only [handleFrame, hdec, hvk, hreplay, hsig, hmt, if_true, hrb] <;>
    refine ⟨fun hnone => ?_, fun ac hsome => ⟨?_, fun hnd => lookupA_removeA_self _ hnd⟩⟩
  · simp [routeReply, hnone]
  · simp only [routeReply, hsome, writeTo]
    by_cases hbig : payload.length > MAX_FRAME_SIZE <;> simp [hbig]
  · simp [routeReply, hnone]
  · simp only [routeReply, hsome, writeTo]
    by_cases hbig : payload.length > MAX_FRAME_SIZE <;> simp [hbig]

/-- Concrete `Result` body answering request `[42]`. -/
def sampleResult : ResultBody := { request_id := [42], result := [7] }

/-- Concrete `Result` envelope from repeater `r` wrapping `sampleResult`. -/
def sampleResultEnvelope : Envelope :=
  { msg_type := .result, principal := [114], ts_ms := 5, nonce := [8],
    body := resultBodyBytes sampleResult, sig := List.replicate 64 0 }

/-- The `sampleState` with a pending entry routing request `[42]` to agent
connection 3. -/
def samplePendingState : ServerState :=
  { bunker := sampleBunker, replay := ReplayCache.new 120000,
    repeaters := [([114], sampleSession)], pending := [([42], 3)] }

/-- Closed instance of `reply_routing_pending`: the sample `Result` frame is
forwarded to agent connection 3 and the pending entry for `[42]` is gone
afterwards. -/
theorem reply_routing_pending_witness :
    handleFrame (fun _ => some ()) (fun _ _ _ _ _ _ => true) samplePendingState .repeater 7 5
        (envelopeBytes sampleResultEnvelope) =
      (.cont,
        { samplePendingState with
          replay := (samplePendingState.replay.check_and_record 5 sampleResultEnvelope.ts_ms
            sampleResultEnvelope.principal sampleResultEnvelope.nonce).2,
          pending := removeA samplePendingState.pending [42] },
        if (envelopeBytes sampleResultEnvelope).length > MAX_FRAME_SIZE then []
        else [.send 3 (envelopeBytes sampleResultEnvelope)], none) ∧
    (NodupKeys samplePendingState.pending →
      lookupA (removeA samplePendingState.pending [42]) [42] = none) :=
  (reply_routing_pending (fun _ => some ()) (fun _ _ _ _ _ _ => true) samplePendingState 7 5
    (envelopeBytes sampleResultEnvelope) sampleResultEnvelope () [42]
    (by decide) (by decide) (by decide) (by decide)
    (Or.inl ⟨rfl, sampleResult, by decide, rfl⟩)).2 3 (by decide)

theorem evict_window (c : ReplayCache) (now : Nat) :
    (c.evict now).window_ms = c.window_ms := rfl

theorem check_and_record_window (c : ReplayCache) (now ts : Nat) (p n : List Nat) :
    (c.check_and_record now ts p n).2.window_ms = c.window_ms := by
  by_cases h1 : (if now ≥ ts then now - ts else ts - now) > c.window_ms
  · rw [(check_and_record_spec c now ts p n).1 h1]
  · have hs := (check_and_record_spec c now ts p n).2 (Nat.le_of_not_lt h1)
    cases hl : lookupNonce (c.evict now) p n with
    | none =>
      rw [(hs.2.2.2.1 hl).1]
      rfl
    | some t =>
      rw [hs.2.2.2.2 t hl]
      rfl

/-- A synthesized error reply never touches the shared state, writes at most
one frame, only to the given connection, and binds no repeater id. -/
theorem replyError_shape (st : ServerState) (conn now : Nat) (rid : List Nat)
    (code : ErrorCode) (msg : List Nat) :
    (replyError st conn now rid code msg).2.1 = st ∧
    (∀ ev ∈ (replyError st conn now rid code msg).2.2.1, ∃ f, ev = OutEvent.send conn f) ∧
    (replyError st conn now rid code msg).2.2.2 = none := by
  unfold replyError
  cases sendErrorFrame now rid code msg with
  | error e => simp
  | ok frame =>
    unfold writeTo
    by_cases h : frame.length > MAX_FRAME_SIZE <;> simp [h]

/-- Claim C9: the per-frame handler consults and updates the replay cache
before verifying the signature.  A frame naming a known principal with a
fresh in-window nonce whose signature then fails verification closes the
connection but still records `(principal, nonce)` in the shared replay
cache; a frame then processed from the resulting state reusing the same
nonce within the window — whatever its signature — takes the replay-rejected
path: it is never dispatched (sessions and pending table unchanged, no
repeater id bound, any output only a reply to its own sender). -/
theorem replay_recorded_before_signature_check {VK : Type}
    (parseVk : List Nat → Option VK)
    (verifyOk : VK → List Nat → Nat → List Nat → List Nat → List Nat → Bool)
    (st : ServerState) (kind : PeerKind) (conn now : Nat) (payload : List Nat)
    (env : Envelope) (vk : VK)
    (hwf : st.replay.WF)
    (hdec : Envelope.decode payload = .ok env)
    (hvk : lookupVk parseVk st.bunker env.principal = some vk)
    (hdt : (if now ≥ env.ts_ms then now - env.ts_ms else env.ts_ms - now) ≤
      st.replay.window_ms)
    (hfresh : lookupNonce (st.replay.evict now) env.principal env.nonce = none)
    (hsig : verifyOk vk env.principal env.ts_ms env.nonce env.body env.sig = false) :
    handleFrame parseVk verifyOk st kind conn now payload =
      (.closeErr,
        { st with
          replay := (st.replay.check_and_record now env.ts_ms env.principal env.nonce).2 },
        [], none) ∧
    lookupNonce (st.replay.check_and_record now env.ts_ms env.principal env.nonce).2
      env.principal env.nonce = some env.ts_ms ∧
    (∀ (kind2 : PeerKind) (conn2 now2 : Nat) (payload2 : List Nat) (env2 : Envelope)
      (vk2 : VK),
      Envelope.decode payload2 = .ok env2 →
      env2.principal = env.principal → env2.nonce = env.nonce →
      lookupVk parseVk st.bunker env2.principal = some vk2 →
      (if now2 ≥ env2.ts_ms then now2 - env2.ts_ms else env2.ts_ms - now2) ≤
        st.replay.window_ms →
      now2 - st.replay.window_ms ≤ env.ts_ms →
      (((st.replay.check_and_record now env.ts_ms env.principal env.nonce).2.check_and_record
          now2 env2.ts_ms env2.principal env2.nonce).1 = .error .replay) ∧
      ((handleFrame parseVk verifyOk
          { st with
            replay := (st.replay.check_and_record now env.ts_ms env.principal env.nonce).2 }
          kind2 conn2 now2 payload2).2.1.pending = st.pending) ∧
      ((handleFrame parseVk verifyOk
          { st with
            replay := (st.replay.check_and_record now env.ts_ms env.principal env.nonce).2 }
          kind2 conn2 now2 payload2).2.1.repeaters = st.repeaters) ∧
      (∀ ev ∈ (handleFrame parseVk verifyOk
          { st with
            replay := (st.replay.check_and_record now env.ts_ms env.principal env.nonce).2 }
          kind2 conn2 now2 payload2).2.2.1, ∃ f, ev = OutEvent.send conn2 f) ∧
      ((handleFrame parseVk verifyOk
          { st with
            replay := (st.replay.check_and_record now env.ts_ms env.principal env.nonce).2 }
          kind2 conn2 now2 payload2).2.2.2 = none)) := by
  have hspec := (check_and_record_spec st.replay now env.ts_ms env.principal env.nonce).2 hdt
  have hok1 : (st.replay.check_and_record now env.ts_ms env.principal env.nonce).1 = .ok () :=
    hspec.2.2.1.mpr hfresh
  have hrec := (hspec.2.2.2.1 hfresh).2
  refine ⟨?_, hrec, ?_⟩
  · simp only [handleFrame, hdec, hvk, hok1, hsig]
    rfl
  · intro kind2 conn2 now2 payload2 env2 vk2 hdec2 hp2 hn2 hvk2 hdt2 hcut
    have hwf1 : (st.replay.check_and_record now env.ts_ms env.principal env.nonce).2.WF :=
      WF_check_and_record hwf
    have hwin : (st.replay.check_and_record now env.ts_ms env.principal
        env.nonce).2.window_ms = st.replay.window_ms :=
      check_and_record_window st.replay now env.ts_ms env.principal env.nonce
    have hsurv : lookupNonce ((st.replay.check_and_record now env.ts_ms env.principal
        env.nonce).2.evict now2) env2.principal env2.nonce = some env.ts_ms := by
      rw [hp2, hn2]
      exact lookupNonce_evict_survives hwf1 hrec (by rw [hwin]; exact hcut)
    have hdt2' : (if now2 ≥ env2.ts_ms then now2 - env2.ts_ms else env2.ts_ms - now2) ≤
        (st.replay.check_and_record now env.ts_ms env.principal env.nonce).2.window_ms := by
      rw [hwin]
      exact hdt2
    have hpair := ((check_and_record_spec
      (st.replay.check_and_record now env.ts_ms env.principal env.nonce).2 now2
      env2.ts_ms env2.principal env2.nonce).2 hdt2').2.2.2.2 env.ts_ms hsurv
    refine ⟨by rw [hpair], ?_⟩
    simp only [handleFrame, hdec2, hvk2, hpair]
    cases kind2 with
    | repeater => simp
    | agent =>
      cases hopt : (if env2.msg_type = .invoke then (InvokeBody.decode env2.body).toOption
        else none) with
      | none => simp [hopt]
      | some b =>
        simp only [hopt]
        rw [if_pos trivial]
        have hshape := replyError_shape
          { st with replay := (st.replay.check_and_record now env.ts_ms env.principal
              env.nonce).2.evict now2 }
          conn2 now2 b.request_id .replay (strBytes "replay")
        refine ⟨?_, ?_, hshape.2.1, hshape.2.2⟩
        · rw [hshape.1]
        · rw [hshape.1]

/-- Concrete `Invoke` envelope from agent `a` whose signature will fail
verification. -/
def sampleBadSigEnvelope : Envelope :=
  { msg_type := .invoke, principal := [97], ts_ms := 5, nonce := [9], body := [1],
    sig := List.replicate 64 0 }

/-- Concrete follow-up `Invoke` envelope from agent `a` reusing the nonce of
`sampleBadSigEnvelope`. -/
def sampleReplayEnvelope : Envelope :=
  { msg_type := .invoke, principal := [97], ts_ms := 6, nonce := [9],
    body := invokeBodyBytes sampleInvoke, sig := List.replicate 64 0 }

/-- Closed instance of `replay_recorded_before_signature_check`: the
bad-signature frame closes the connection yet records its nonce, and the
follow-up frame reusing the nonce is rejected as a replay. -/
theorem replay_recorded_before_signature_check_witness :
    handleFrame (fun _ => some ()) (fun _ _ _ _ _ _ => false) sampleState .agent 3 5
        (envelopeBytes sampleBadSigEnvelope) =
      (.closeErr,
        { sampleState with
          replay := (sampleState.replay.check_and_record 5 sampleBadSigEnvelope.ts_ms
            sampleBadSigEnvelope.principal sampleBadSigEnvelope.nonce).2 },
        [], none) ∧
    lookupNonce (sampleState.replay.check_and_record 5 sampleBadSigEnvelope.ts_ms
        sampleBadSigEnvelope.principal sampleBadSigEnvelope.nonce).2
      sampleBadSigEnvelope.principal sampleBadSigEnvelope.nonce =
      some sampleBadSigEnvelope.ts_ms ∧
    ((sampleState.replay.check_and_record 5 sampleBadSigEnvelope.ts_ms
        sampleBadSigEnvelope.principal sampleBadSigEnvelope.nonce).2.check_and_record 6
        sampleReplayEnvelope.ts_ms sampleReplayEnvelope.principal
        sampleReplayEnvelope.nonce).1 = .error .replay := by
  have hwf : sampleState.replay.WF :=
    ⟨List.Pairwise.nil, fun pm hpm => absurd hpm (List.not_mem_nil pm),
     fun e he => absurd he (List.not_mem_nil e), List.Pairwise.nil⟩
  have h := replay_recorded_before_signature_check (fun _ => some ())
    (fun _ _ _ _ _ _ => false) sampleState .agent 3 5 (envelopeBytes sampleBadSigEnvelope)
    sampleBadSigEnvelope ()
    hwf (by decide) (by decide) (by decide) (by decide) (by decide)
  exact ⟨h.1, h.2.1,
    (h.2.2 .agent 4 6 (envelopeBytes sampleReplayEnvelope) sampleReplayEnvelope ()
      (by decide) (by decide) (by decide) (by decide) (by decide) (by decide)).1⟩

end Turret
